import Mathlib

/-!
Address book (`exp.cpp`): contact store and CSV persistence

A shallow embedding of the class `AddressBook` of `exp.cpp` and theorems about it.

Modelling conventions.

* A `std::string` is the list of its characters (`Str`).  The only characters the program
  inspects are `','`, `'\n'` and `'.'`, and the ASCII letters of the field tokens.
* The member `contacts` (a `std::vector<Contact>`) is a `List Contact`; every member function
  takes the vector and returns the new vector.  A vector iterator is the position it points at.
* What a function reads from `std::cin` is a parameter (the selection index, the menu choice,
  the new value, the freshly entered contact).
* What a function prints as a diagnostic (`[ERROR] ...`, `[!] ...` and the candidate lines) is
  returned as a list of `Msg`; the input prompts (`[+] ...`) are not recorded.
* `throw std::invalid_argument` is `Except.error Error.invalid_argument`; a member function
  that changes the store returns the store it leaves behind also when it throws (`Outcome`).
* A file is the text a stream delivers or receives; the file system is a function from names to
  contents.
-/

namespace AddressBook

/-- A `std::string`. -/
abbrev Str := List Char

/-- The class `Contact`: five strings. -/
structure Contact where
  name : Str
  gender : Str
  phone : Str
  class_name : Str
  note : Str
deriving DecidableEq, Repr, Inhabited

/-- The exception thrown by `getPredicate`. -/
inductive Error where
  | invalid_argument
deriving DecidableEq, Repr

/-- The diagnostic lines the member functions print. -/
inductive Msg where
  /-- The line `[!] 找到多个联系人，请选择要删除的联系人的序号：` -/
  | multipleFound
  /-- The line `[i] contact`, one line of the candidate list -/
  | candidate (i : Nat) (c : Contact)
  /-- The line `[ERROR] 无效的序号` -/
  | invalidIndex
  /-- The line `[ERROR] 未找到联系人：value` -/
  | notFound (value : Str)
  /-- The line `[ERROR] 无效的选择` -/
  | invalidChoice
  /-- The line `[ERROR] 无法解析行：line` -/
  | parseError (line : Str)
  /-- The line `[ERROR] 通讯录为空，无法保存` -/
  | emptyBook
  /-- The line `[ERROR] 无法打开文件：filename` -/
  | cannotOpen (filename : Str)
  /-- The line `[ERROR] 通讯录为空` of `display` -/
  | emptyDisplay
  /-- The lines `[INFO] 所有联系人：` and the row of column titles of `display` -/
  | listHeader
  /-- The line `display` prints for one contact -/
  | contactLine (c : Contact)
deriving DecidableEq, Repr

/-- The type `Predicate` of the source: `bool(const Contact&, const std::string&)`. -/
abbrev Predicate := Contact → Str → Bool

/-- Member function `AddressBookBase::getPredicate`. -/
def getPredicate (type : Str) : Except Error Predicate :=
  if type = "name".toList ∨ type = "Name".toList ∨ type = "N".toList ∨ type = "n".toList then
    .ok (fun c value => c.name == value)
  else if type = "gender".toList ∨ type = "Gender".toList ∨ type = "G".toList
      ∨ type = "g".toList then
    .ok (fun c value => c.gender == value)
  else if type = "phone".toList ∨ type = "Phone".toList ∨ type = "P".toList
      ∨ type = "p".toList then
    .ok (fun c value => c.phone == value)
  else if type = "class".toList ∨ type = "Class".toList ∨ type = "C".toList
      ∨ type = "c".toList then
    .ok (fun c value => c.class_name == value)
  else
    .error Error.invalid_argument

/-- Member function `AddressBook::modifyContactValue`: `choice` is the number read from
`std::cin`, `value` the string read in the cases 1 to 5, `fresh` the result of
`inputContact()` in case 6. -/
def modifyContactValue (contact : Contact) (choice : Int) (value : Str) (fresh : Contact) :
    Contact × List Msg :=
  if choice = 1 then ({ contact with name := value }, [])
  else if choice = 2 then ({ contact with gender := value }, [])
  else if choice = 3 then ({ contact with phone := value }, [])
  else if choice = 4 then ({ contact with class_name := value }, [])
  else if choice = 5 then ({ contact with note := value }, [])
  else if choice = 6 then (fresh, [])
  else if choice = 7 then (contact, [])
  else (contact, [Msg.invalidChoice])

/-- Member function `AddressBook::addContact`: `fresh` is the result of `inputContact()`. -/
def addContact (contacts : List Contact) (fresh : Contact) : List Contact :=
  contacts ++ [fresh]

/-- The loop of `deleteContact` and `modifyContact` that walks `contacts` from `begin()` to
`end()` and pushes the iterator of every matching contact: `pos` is the position of the
iterator, `found` the vector `to_delete` (`to_modify`) so far. -/
def collectMatches (predicate : Predicate) (value : Str) :
    List Contact → Nat → List Nat → List Nat
  | [], _, found => found
  | c :: rest, pos, found =>
    collectMatches predicate value rest (pos + 1)
      (if predicate c value then found ++ [pos] else found)

/-- The candidate lines `[i] *to_delete[i]` for `i = 0 .. size-1`, printed from `i` on. -/
def candidateLines (contacts : List Contact) : List Nat → Nat → List Msg
  | [], _ => []
  | pos :: rest, i =>
    Msg.candidate i (contacts.getD pos default) :: candidateLines contacts rest (i + 1)

/-- The state of the address book after a call of `deleteContact` or `modifyContact`, with
what the call printed and the exception it left by, if any. -/
structure Outcome where
  contacts : List Contact
  out : List Msg
  thrown : Option Error
deriving DecidableEq, Repr

/-- Member function `AddressBook::deleteContact`: `index` is the number read from `std::cin`
when several contacts match. -/
def deleteContact (contacts : List Contact) (type value : Str) (index : Nat) : Outcome :=
  match getPredicate type with
  | .error e => ⟨contacts, [], some e⟩
  | .ok predicate =>
    let to_delete := collectMatches predicate value contacts 0 []
    if to_delete.length > 1 then
      let out := Msg.multipleFound :: candidateLines contacts to_delete 0
      if index < to_delete.length then
        ⟨contacts.eraseIdx (to_delete.getD index 0), out, none⟩
      else
        ⟨contacts, out ++ [Msg.invalidIndex], none⟩
    else if to_delete.length = 1 then
      ⟨contacts.eraseIdx (to_delete.getD 0 0), [], none⟩
    else
      ⟨contacts, [Msg.notFound value], none⟩

/-- The call `modifyContactValue(*it)` on the contact at position `pos` of the vector: the
vector and the diagnostics after it. -/
def modifyAt (contacts : List Contact) (pos : Nat) (choice : Int) (value : Str)
    (fresh : Contact) : List Contact × List Msg :=
  let r := modifyContactValue (contacts.getD pos default) choice value fresh
  (contacts.set pos r.1, r.2)

/-- Member function `AddressBook::modifyContact`: `index` is the number read from `std::cin`
when several contacts match; `choice`, `newValue` and `fresh` are what `modifyContactValue`
reads. -/
def modifyContact (contacts : List Contact) (type value : Str) (index : Nat)
    (choice : Int) (newValue : Str) (fresh : Contact) : Outcome :=
  match getPredicate type with
  | .error e => ⟨contacts, [], some e⟩
  | .ok predicate =>
    let to_modify := collectMatches predicate value contacts 0 []
    if to_modify.length > 1 then
      let out := Msg.multipleFound :: candidateLines contacts to_modify 0
      if index < to_modify.length then
        let r := modifyAt contacts (to_modify.getD index 0) choice newValue fresh
        ⟨r.1, out ++ r.2, none⟩
      else
        ⟨contacts, out ++ [Msg.invalidIndex], none⟩
    else if to_modify.length = 1 then
      let r := modifyAt contacts (to_modify.getD 0 0) choice newValue fresh
      ⟨r.1, r.2, none⟩
    else
      ⟨contacts, [Msg.notFound value], none⟩

/-- Library function `std::copy_if(first, last, std::back_inserter(out), pred)`: `out` is the
output so far. -/
def copy_if (pred : Contact → Bool) : List Contact → List Contact → List Contact
  | [], out => out
  | c :: rest, out => copy_if pred rest (if pred c then out ++ [c] else out)

/-- Member function `AddressBook::findContacts`. -/
def findContacts (contacts : List Contact) (type value : Str) : Except Error (List Contact) :=
  match getPredicate type with
  | .error e => .error e
  | .ok predicate => .ok (copy_if (fun c => predicate c value) contacts [])

/-- The header line `saveToFile` writes. -/
def header : Str := "姓名,性别,电话,班级,备注".toList

/-- The line `saveToFile` writes for one contact. -/
def encodeContact (contact : Contact) : Str :=
  contact.name ++ [','] ++ contact.gender ++ [','] ++ contact.phone ++ [',']
    ++ contact.class_name ++ [','] ++ contact.note ++ ['\n']

/-- The loop of `saveToFile` over `contacts`, appending to the text `file` written so far. -/
def writeContacts : List Contact → Str → Str
  | [], file => file
  | contact :: rest, file => writeContacts rest (file ++ encodeContact contact)

/-- The text `saveToFile` writes to the opened stream (lines 256-261). -/
def encode (contacts : List Contact) : Str :=
  writeContacts contacts (header ++ ['\n'])

/-- The value `std::string::npos` (the largest `size_t`). -/
def npos : Nat := 2 ^ 64 - 1

/-- The scan of `find_last_of`: `i` is the current position, `best` the last hit so far. -/
def find_last_of_from (ch : Char) : Str → Nat → Nat → Nat
  | [], _, best => best
  | c :: cs, i, best => find_last_of_from ch cs (i + 1) (if c = ch then i else best)

/-- The call `s.find_last_of(ch)` for a one-character argument: the last position of `ch`, or
`npos`. -/
def find_last_of (s : Str) (ch : Char) : Nat :=
  find_last_of_from ch s 0 npos

/-- The call `s.substr(pos)` for `pos <= s.size()`. -/
def substr (s : Str) (pos : Nat) : Str :=
  s.drop pos

/-- The file name `saveToFile` opens (lines 246-249); `+ 1` is `size_t` arithmetic. -/
def normalizeFilename (filename : Str) : Str :=
  if substr filename ((find_last_of filename '.' + 1) % 2 ^ 64) ≠ "csv".toList then
    filename ++ ".csv".toList
  else
    filename

/-- Member function `AddressBook::saveToFile`: `canWrite` tells which names `std::ofstream`
can open.  The result is the file written (name and content), if any, and the diagnostics. -/
def saveToFile (canWrite : Str → Bool) (contacts : List Contact) (filename : Str) :
    Option (Str × Str) × List Msg :=
  if contacts.isEmpty then
    (none, [Msg.emptyBook])
  else
    let mutableFilename := normalizeFilename filename
    if !canWrite mutableFilename then
      (none, [Msg.cannotOpen mutableFilename])
    else
      (some (mutableFilename, encode contacts), [])

/-- The characters `std::getline` extracts from a stream with unread content `s`, up to and
without the first `delim`, and the content left unread (the delimiter is consumed). -/
def getlineChars (delim : Char) : Str → Str × Str
  | [] => ([], [])
  | c :: cs =>
    if c = delim then ([], cs)
    else (c :: (getlineChars delim cs).1, (getlineChars delim cs).2)

/-- Library function `std::getline(is, str, delim)` on a stream with unread content `s`: it
fails (`none`) when nothing can be extracted, which is when the stream is at its end. -/
def getline (delim : Char) (s : Str) : Option (Str × Str) :=
  match s with
  | [] => none
  | _ :: _ => some (getlineChars delim s)

/-- The body of the reading loop of `loadFromFile` (lines 282-292) on one line: the five
`std::getline(iss, field, ',')` calls joined by `&&`. -/
def parseLine (line : Str) : Option Contact :=
  match getline ',' line with
  | none => none
  | some (name, r1) =>
    match getline ',' r1 with
    | none => none
    | some (gender, r2) =>
      match getline ',' r2 with
      | none => none
      | some (phone, r3) =>
        match getline ',' r3 with
        | none => none
        | some (class_name, r4) =>
          match getline ',' r4 with
          | none => none
          | some (note, _) => some ⟨name, gender, phone, class_name, note⟩

/-- The loop `while (std::getline(file, line))` of `loadFromFile`: `file` is the unread
content, `contacts` the vector so far, `err` what was written to `std::cerr` so far.  The loop
is bounded by `fuel`; `none` means the bound was reached before the loop ended. -/
def readLoop : Nat → Str → List Contact → List Msg → Option (List Contact × List Msg)
  | 0, _, _, _ => none
  | fuel + 1, file, contacts, err =>
    match getline '\n' file with
    | none => some (contacts, err)
    | some (line, rest) =>
      match parseLine line with
      | some c => readLoop fuel rest (contacts ++ [c]) err
      | none => readLoop fuel rest contacts (err ++ [Msg.parseError line])

/-- What is left unread after the `std::getline(file, line)` that skips the header. -/
def skipHeader (text : Str) : Str :=
  match getline '\n' text with
  | none => []
  | some (_, rest) => rest

/-- The parsing of `loadFromFile` (lines 274-293) on the text of the opened file: the contacts
and the parse diagnostics.  Every pass of the loop consumes a character, so the length of the
text plus one bounds the number of passes. -/
def decode (text : Str) : Option (List Contact × List Msg) :=
  readLoop (text.length + 1) (skipHeader text) [] []

/-- Member function `AddressBook::loadFromFile`: `fs` gives the content of the files
`std::ifstream` can open. -/
def loadFromFile (fs : Str → Option Str) (contacts : List Contact) (filename : Str) :
    Option (List Contact × List Msg) :=
  match fs filename with
  | none => some (contacts, [Msg.cannotOpen filename])
  | some text => decode text

/-- Member function `AddressBook::display`: what it prints. -/
def display (contacts : List Contact) : List Msg :=
  if contacts.isEmpty then
    [Msg.emptyDisplay]
  else
    Msg.listHeader :: contacts.map Msg.contactLine

/-! ### Vocabulary of the statements -/

/-- The text made of the given lines, every line followed by one newline. -/
def unlines : List Str → Str
  | [] => []
  | l :: ls => l ++ '\n' :: unlines ls

/-- The five fields of a contact joined by single commas, without a trailing comma. -/
def csvLine (c : Contact) : Str :=
  List.intercalate [','] [c.name, c.gender, c.phone, c.class_name, c.note]

/-- The four fields a contact can be selected by. -/
inductive Field where
  | name
  | gender
  | phone
  | class_name
deriving DecidableEq, Repr

/-- The value of a field of a contact. -/
def Field.get : Field → Contact → Str
  | .name, c => c.name
  | .gender, c => c.gender
  | .phone, c => c.phone
  | .class_name, c => c.class_name

/-- The spellings `getPredicate` compares its argument with, by the field they select. -/
def Field.tokens : Field → List Str
  | .name => ["name".toList, "Name".toList, "N".toList, "n".toList]
  | .gender => ["gender".toList, "Gender".toList, "G".toList, "g".toList]
  | .phone => ["phone".toList, "Phone".toList, "P".toList, "p".toList]
  | .class_name => ["class".toList, "Class".toList, "C".toList, "c".toList]

/-- The candidate list for the matching contacts `found`, numbered from 0 in their order. -/
def candidates (found : List Contact) : List Msg :=
  found.enum.map (fun ic => Msg.candidate ic.1 ic.2)

/-- The lines successive `std::getline(file, line)` calls deliver: the pieces between
newlines, without an empty piece after a final newline. -/
def textLines : Str → List Str
  | [] => []
  | c :: cs =>
    if c = '\n' then [] :: textLines cs
    else
      match textLines cs with
      | [] => [[c]]
      | l :: ls => (c :: l) :: ls

/-- The first `n` of the `std::getline(iss, field, ',')` calls of `parseLine`, joined by `&&`:
the fields read, or `none` when one of the calls fails. -/
def readFields : Nat → Str → Option (List Str)
  | 0, _ => some []
  | n + 1, s =>
    match getline ',' s with
    | none => none
    | some (f, r) => (readFields n r).map (fun fs => f :: fs)

/-- The contact `loadFromFile` builds from five fields read. -/
def contactOfFields : List Str → Option Contact
  | [name, gender, phone, class_name, note] => some ⟨name, gender, phone, class_name, note⟩
  | _ => none

/-- The parse diagnostics of a list of lines: one for every line `parseLine` rejects. -/
def warnings (lines : List Str) : List Msg :=
  (lines.filter (fun l => (parseLine l).isNone)).map Msg.parseError

end AddressBook


namespace AddressBook

/-! ### The contact store -/

theorem copy_if_eq (pred : Contact → Bool) (cs out : List Contact) :
    copy_if pred cs out = out ++ cs.filter pred := by
  induction cs generalizing out with
  | nil => simp [copy_if]
  | cons c rest ih =>
    by_cases h : pred c <;> simp [copy_if, ih, h]

theorem getPredicate_tokens (f : Field) (type : Str) (h : type ∈ f.tokens) :
    getPredicate type = .ok (fun c value => f.get c == value) := by
  cases f <;> simp only [Field.tokens, List.mem_cons, List.mem_singleton, List.not_mem_nil,
    or_false] at h <;> rcases h with h | h | h | h <;> subst h <;> rfl

theorem getPredicate_error (type : Str)
    (h : ∀ f : Field, type ∉ f.tokens) : getPredicate type = .error Error.invalid_argument := by
  have h1 := h .name
  have h2 := h .gender
  have h3 := h .phone
  have h4 := h .class_name
  simp only [Field.tokens, List.mem_cons, List.mem_singleton, List.not_mem_nil, or_false] at h1 h2 h3 h4
  simp only [not_or] at h1 h2 h3 h4
  unfold getPredicate
  rw [if_neg (by tauto), if_neg (by tauto), if_neg (by tauto), if_neg (by tauto)]

theorem collectMatches_acc (p : Predicate) (v : Str) (cs : List Contact) (pos : Nat)
    (found : List Nat) :
    collectMatches p v cs pos found = found ++ collectMatches p v cs pos [] := by
  induction cs generalizing pos found with
  | nil => simp [collectMatches]
  | cons c rest ih =>
    simp only [collectMatches]
    rw [ih (pos + 1) (if p c v then found ++ [pos] else found),
      ih (pos + 1) (if p c v then [] ++ [pos] else [])]
    by_cases h : p c v <;> simp [h]

theorem collectMatches_cons (p : Predicate) (v : Str) (c : Contact) (rest : List Contact)
    (pos : Nat) :
    collectMatches p v (c :: rest) pos []
      = (if p c v then [pos] else []) ++ collectMatches p v rest (pos + 1) [] := by
  simp only [collectMatches]
  rw [collectMatches_acc]
  by_cases h : p c v <;> simp [h]

theorem collectMatches_length (p : Predicate) (v : Str) (cs : List Contact) (pos : Nat) :
    (collectMatches p v cs pos []).length = (cs.filter (fun c => p c v)).length := by
  induction cs generalizing pos with
  | nil => simp [collectMatches]
  | cons c rest ih =>
    rw [collectMatches_cons]
    by_cases h : p c v <;> simp [h, ih]

theorem collectMatches_split (p : Predicate) (v : Str) (c : Contact) (hc : p c v = true)
    (pre post : List Contact) (pos : Nat) :
    collectMatches p v (pre ++ c :: post) pos []
      = collectMatches p v pre pos []
        ++ (pos + pre.length) :: collectMatches p v post (pos + pre.length + 1) [] := by
  induction pre generalizing pos with
  | nil =>
    rw [List.nil_append, collectMatches_cons]
    simp [hc, collectMatches]
  | cons d rest ih =>
    rw [List.cons_append, collectMatches_cons, collectMatches_cons, ih (pos + 1)]
    have e1 : pos + 1 + rest.length = pos + (d :: rest).length := by simp; omega
    rw [e1]
    simp

theorem getD_append_length {α : Type} (A B : List α) (x d : α) :
    (A ++ x :: B).getD A.length d = x := by
  induction A with
  | nil => simp
  | cons a A ih => simpa using ih

theorem eraseIdx_append_length {α : Type} (A B : List α) (x : α) :
    (A ++ x :: B).eraseIdx A.length = A ++ B := by
  induction A with
  | nil => simp
  | cons a A ih => simpa using ih

theorem set_append_length {α : Type} (A B : List α) (x y : α) :
    (A ++ x :: B).set A.length y = A ++ y :: B := by
  induction A with
  | nil => simp
  | cons a A ih => simp

/-- The iterator stored at index `i` of `to_delete` points at the match that has exactly `i`
matches before it. -/
theorem collectMatches_getD (p : Predicate) (v : Str) (c : Contact) (hc : p c v = true)
    (pre post : List Contact) :
    (collectMatches p v (pre ++ c :: post) 0 []).getD (pre.filter (fun c => p c v)).length 0
      = pre.length := by
  rw [collectMatches_split p v c hc, ← collectMatches_length p v pre 0]
  simpa using getD_append_length (collectMatches p v pre 0 []) _ (pre.length) 0

theorem candidateLines_eq (p : Predicate) (v : Str) (pre rest : List Contact) (i : Nat) :
    candidateLines (pre ++ rest) (collectMatches p v rest pre.length []) i
      = ((rest.filter (fun c => p c v)).enumFrom i).map (fun ic => Msg.candidate ic.1 ic.2) := by
  induction rest generalizing pre i with
  | nil => simp [collectMatches, candidateLines]
  | cons c rest ih =>
    rw [collectMatches_cons]
    have e : pre ++ c :: rest = (pre ++ [c]) ++ rest := by simp
    have ih2 := ih (pre ++ [c])
    rw [← e] at ih2
    simp only [List.length_append, List.length_singleton] at ih2
    by_cases h : p c v
    · simp only [h, if_true, List.singleton_append, candidateLines, List.filter_cons,
        List.enumFrom_cons, List.map_cons, ih2]
      rw [getD_append_length]
    · simp only [h, Bool.false_eq_true, if_false, List.nil_append, List.filter_cons, ih2]

theorem candidateLines_collect (p : Predicate) (v : Str) (cs : List Contact) :
    candidateLines cs (collectMatches p v cs 0 []) 0
      = candidates (cs.filter (fun c => p c v)) := by
  simpa [candidates, List.enum] using candidateLines_eq p v [] cs 0

theorem exists_split_of_lt (q : Contact → Bool) (cs : List Contact) (i : Nat)
    (h : i < (cs.filter q).length) :
    ∃ pre c post, cs = pre ++ c :: post ∧ q c = true ∧ (pre.filter q).length = i := by
  induction cs generalizing i with
  | nil => simp at h
  | cons d rest ih =>
    by_cases hd : q d
    · cases i with
      | zero => exact ⟨[], d, rest, rfl, hd, rfl⟩
      | succ j =>
        have hj : j < (rest.filter q).length := by
          simp [List.filter_cons, hd] at h
          exact h
        obtain ⟨pre, c, post, e, hc, hl⟩ := ih j hj
        exact ⟨d :: pre, c, post, by simp [e], hc, by simp [List.filter_cons, hd, hl]⟩
    · have hj : i < (rest.filter q).length := by
        simpa [List.filter_cons, hd] using h
      obtain ⟨pre, c, post, e, hc, hl⟩ := ih i hj
      exact ⟨d :: pre, c, post, by simp [e], hc, by simp [List.filter_cons, hd, hl]⟩

theorem getElem?_append_length {α : Type} (A B : List α) (x : α) :
    (A ++ x :: B)[A.length]? = some x := by
  induction A with
  | nil => simp
  | cons a A ih => simpa using ih

/-- With a field token `getPredicate` accepts, `deleteContact` is its branch on the number of
matching contacts. -/
theorem deleteContact_resolved (f : Field) (type : Str) (ht : type ∈ f.tokens)
    (contacts : List Contact) (value : Str) (index : Nat) :
    deleteContact contacts type value index =
      if 1 < (contacts.filter (fun c => f.get c == value)).length then
        if index < (contacts.filter (fun c => f.get c == value)).length then
          ⟨contacts.eraseIdx
            ((collectMatches (fun c v => f.get c == v) value contacts 0 []).getD index 0),
            Msg.multipleFound :: candidates (contacts.filter (fun c => f.get c == value)), none⟩
        else
          ⟨contacts, Msg.multipleFound :: candidates (contacts.filter (fun c => f.get c == value))
            ++ [Msg.invalidIndex], none⟩
      else if (contacts.filter (fun c => f.get c == value)).length = 1 then
        ⟨contacts.eraseIdx
          ((collectMatches (fun c v => f.get c == v) value contacts 0 []).getD 0 0), [], none⟩
      else
        ⟨contacts, [Msg.notFound value], none⟩ := by
  unfold deleteContact
  rw [getPredicate_tokens f type ht]
  simp only [gt_iff_lt, collectMatches_length, candidateLines_collect]

/-- With a field token `getPredicate` accepts, `modifyContact` is its branch on the number of
matching contacts. -/
theorem modifyContact_resolved (f : Field) (type : Str) (ht : type ∈ f.tokens)
    (contacts : List Contact) (value : Str) (index : Nat) (choice : Int) (newValue : Str)
    (fresh : Contact) :
    modifyContact contacts type value index choice newValue fresh =
      if 1 < (contacts.filter (fun c => f.get c == value)).length then
        if index < (contacts.filter (fun c => f.get c == value)).length then
          ⟨(modifyAt contacts
              ((collectMatches (fun c v => f.get c == v) value contacts 0 []).getD index 0)
              choice newValue fresh).1,
            Msg.multipleFound :: candidates (contacts.filter (fun c => f.get c == value))
              ++ (modifyAt contacts
                ((collectMatches (fun c v => f.get c == v) value contacts 0 []).getD index 0)
                choice newValue fresh).2, none⟩
        else
          ⟨contacts, Msg.multipleFound :: candidates (contacts.filter (fun c => f.get c == value))
            ++ [Msg.invalidIndex], none⟩
      else if (contacts.filter (fun c => f.get c == value)).length = 1 then
        ⟨(modifyAt contacts
            ((collectMatches (fun c v => f.get c == v) value contacts 0 []).getD 0 0)
            choice newValue fresh).1,
          (modifyAt contacts
            ((collectMatches (fun c v => f.get c == v) value contacts 0 []).getD 0 0)
            choice newValue fresh).2, none⟩
      else
        ⟨contacts, [Msg.notFound value], none⟩ := by
  unfold modifyContact
  rw [getPredicate_tokens f type ht]
  simp only [gt_iff_lt, collectMatches_length, candidateLines_collect]

/-- The contact `modifyContactValue` is called on, and the vector after the call, when the
iterator chosen is that of the match with `(pre.filter _).length` matches before it. -/
theorem modifyAt_split (f : Field) (value : Str) (pre post : List Contact) (c : Contact)
    (hc : f.get c = value) (choice : Int) (newValue : Str) (fresh : Contact) :
    modifyAt (pre ++ c :: post)
        ((collectMatches (fun c v => f.get c == v) value (pre ++ c :: post) 0 []).getD
          (pre.filter (fun c => f.get c == value)).length 0) choice newValue fresh
      = (pre ++ (modifyContactValue c choice newValue fresh).1 :: post,
          (modifyContactValue c choice newValue fresh).2) := by
  rw [collectMatches_getD (fun c v => f.get c == v) value c (by simp [hc]) pre post]
  simp only [modifyAt, getD_append_length, set_append_length]

theorem eraseIdx_split (f : Field) (value : Str) (pre post : List Contact) (c : Contact)
    (hc : f.get c = value) :
    (pre ++ c :: post).eraseIdx
        ((collectMatches (fun c v => f.get c == v) value (pre ++ c :: post) 0 []).getD
          (pre.filter (fun c => f.get c == value)).length 0)
      = pre ++ post := by
  rw [collectMatches_getD (fun c v => f.get c == v) value c (by simp [hc]) pre post,
    eraseIdx_append_length]

/-- C3: for every store, every field token `getPredicate` accepts and every value,
`findContacts` returns the filter of the store by "the field equals the value", in store order;
when no contact matches it returns the empty sequence and throws nothing. -/
theorem findContacts_filter (contacts : List Contact) (f : Field) (type value : Str)
    (ht : type ∈ f.tokens) :
    findContacts contacts type value = .ok (contacts.filter (fun c => f.get c == value))
    ∧ ((∀ c ∈ contacts, f.get c ≠ value) → findContacts contacts type value = .ok []) := by
  have h : findContacts contacts type value
      = .ok (contacts.filter (fun c => f.get c == value)) := by
    unfold findContacts
    rw [getPredicate_tokens f type ht]
    simp only [copy_if_eq, List.nil_append]
  refine ⟨h, fun hno => ?_⟩
  rw [h]
  congr 1
  rw [List.filter_eq_nil_iff]
  intro c hc
  simpa using hno c hc

/-- C3, the example of the specification: on the store of the one contact
("Alice","F","111","C1",""), find by phone "111" returns that contact and find by phone "999"
returns the empty sequence. -/
theorem findContacts_filter_witness :
    "phone".toList ∈ Field.phone.tokens
    ∧ findContacts [⟨"Alice".toList, "F".toList, "111".toList, "C1".toList, []⟩]
        "phone".toList "111".toList
      = .ok [⟨"Alice".toList, "F".toList, "111".toList, "C1".toList, []⟩]
    ∧ findContacts [⟨"Alice".toList, "F".toList, "111".toList, "C1".toList, []⟩]
        "phone".toList "999".toList = .ok [] :=
  ⟨by decide,
   (findContacts_filter [⟨"Alice".toList, "F".toList, "111".toList, "C1".toList, []⟩]
      .phone "phone".toList "111".toList (by decide)).1,
   (findContacts_filter [⟨"Alice".toList, "F".toList, "111".toList, "C1".toList, []⟩]
      .phone "phone".toList "999".toList (by decide)).2 (by decide)⟩

/-- C4, counterexample: "NAME", "pHoNe" and "CLASS" equal "name", "phone" and "class" when
letter case is ignored, and `getPredicate` throws on each of them. -/
theorem getPredicate_not_case_insensitive :
    ("NAME".toList.map Char.toLower = "name".toList
      ∧ getPredicate "NAME".toList = .error Error.invalid_argument)
    ∧ ("pHoNe".toList.map Char.toLower = "phone".toList
      ∧ getPredicate "pHoNe".toList = .error Error.invalid_argument)
    ∧ ("CLASS".toList.map Char.toLower = "class".toList
      ∧ getPredicate "CLASS".toList = .error Error.invalid_argument) :=
  ⟨⟨by decide, rfl⟩, ⟨by decide, rfl⟩, ⟨by decide, rfl⟩⟩

/-- C4, amended: `getPredicate` succeeds on the sixteen spellings it lists (the lower-case word,
the capitalised word, and the initial in either case, of name, gender, phone and class) and
returns the predicate that compares the corresponding field with the value; on every other
token, so on every other capitalisation, it throws. -/
theorem getPredicate_spellings (type : Str) :
    (∀ f : Field, type ∈ f.tokens →
      ∃ p : Predicate, getPredicate type = .ok p
        ∧ ∀ (c : Contact) (value : Str), p c value = true ↔ f.get c = value)
    ∧ ((∀ f : Field, type ∉ f.tokens) → getPredicate type = .error Error.invalid_argument) := by
  refine ⟨fun f ht => ⟨fun c value => f.get c == value, getPredicate_tokens f type ht, ?_⟩,
    getPredicate_error type⟩
  intro c value
  simp

/-- C4, amended, at the tokens "Name" (accepted, compares the name) and "NAME" (rejected). -/
theorem getPredicate_spellings_witness :
    "Name".toList ∈ Field.name.tokens
    ∧ (∃ p : Predicate, getPredicate "Name".toList = .ok p
        ∧ ∀ (c : Contact) (value : Str), p c value = true ↔ Field.name.get c = value)
    ∧ (∀ f : Field, "NAME".toList ∉ f.tokens)
    ∧ getPredicate "NAME".toList = .error Error.invalid_argument :=
  ⟨by decide, (getPredicate_spellings "Name".toList).1 .name (by decide),
   fun f => by cases f <;> decide,
   (getPredicate_spellings "NAME".toList).2 (fun f => by cases f <;> decide)⟩

/-- C5: for every token that is none of the spellings `getPredicate` accepts (so for every
token that is not name, n, gender, g, phone, p, class or c in any letter case), `findContacts`,
`deleteContact` and `modifyContact` throw `std::invalid_argument`, print nothing, and leave the
store as it was. -/
theorem invalid_field_rejected (contacts : List Contact) (type value : Str) (index : Nat)
    (choice : Int) (newValue : Str) (fresh : Contact) (h : ∀ f : Field, type ∉ f.tokens) :
    findContacts contacts type value = .error Error.invalid_argument
    ∧ deleteContact contacts type value index = ⟨contacts, [], some Error.invalid_argument⟩
    ∧ modifyContact contacts type value index choice newValue fresh
        = ⟨contacts, [], some Error.invalid_argument⟩ := by
  have e := getPredicate_error type h
  refine ⟨?_, ?_, ?_⟩
  · unfold findContacts
    rw [e]
  · unfold deleteContact
    rw [e]
  · unfold modifyContact
    rw [e]

/-- C5, at the tokens "note" and "" on a store of one contact. -/
theorem invalid_field_rejected_witness :
    ((∀ f : Field, "note".toList ∉ f.tokens)
      ∧ findContacts [⟨['a'], ['b'], ['c'], ['d'], ['e']⟩] "note".toList ['e']
          = .error Error.invalid_argument
      ∧ deleteContact [⟨['a'], ['b'], ['c'], ['d'], ['e']⟩] "note".toList ['e'] 0
          = ⟨[⟨['a'], ['b'], ['c'], ['d'], ['e']⟩], [], some Error.invalid_argument⟩
      ∧ modifyContact [⟨['a'], ['b'], ['c'], ['d'], ['e']⟩] "note".toList ['e'] 0 1 ['x'] default
          = ⟨[⟨['a'], ['b'], ['c'], ['d'], ['e']⟩], [], some Error.invalid_argument⟩)
    ∧ ((∀ f : Field, ([] : Str) ∉ f.tokens)
      ∧ findContacts [⟨['a'], ['b'], ['c'], ['d'], ['e']⟩] [] []
          = .error Error.invalid_argument
      ∧ deleteContact [⟨['a'], ['b'], ['c'], ['d'], ['e']⟩] [] [] 0
          = ⟨[⟨['a'], ['b'], ['c'], ['d'], ['e']⟩], [], some Error.invalid_argument⟩
      ∧ modifyContact [⟨['a'], ['b'], ['c'], ['d'], ['e']⟩] [] [] 0 1 ['x'] default
          = ⟨[⟨['a'], ['b'], ['c'], ['d'], ['e']⟩], [], some Error.invalid_argument⟩) :=
  ⟨⟨fun f => by cases f <;> decide,
    invalid_field_rejected [⟨['a'], ['b'], ['c'], ['d'], ['e']⟩] "note".toList ['e'] 0 1 ['x']
      default (fun f => by cases f <;> decide)⟩,
   ⟨fun f => by cases f <;> decide,
    invalid_field_rejected [⟨['a'], ['b'], ['c'], ['d'], ['e']⟩] [] [] 0 1 ['x']
      default (fun f => by cases f <;> decide)⟩⟩

/-- A token that is none of name, n, gender, g, phone, p, class, c when letter case is ignored
is none of the spellings `getPredicate` accepts. -/
theorem not_token_of_not_spelling (type : Str)
    (h : type.map Char.toLower ∉ ["name".toList, "n".toList, "gender".toList, "g".toList,
      "phone".toList, "p".toList, "class".toList, "c".toList]) :
    ∀ f : Field, type ∉ f.tokens := by
  intro f hf
  apply h
  cases f <;> simp only [Field.tokens, List.mem_cons, List.mem_singleton, List.not_mem_nil,
    or_false] at hf <;> rcases hf with hf | hf | hf | hf <;> subst hf <;> decide

theorem filter_length_split (q : Contact → Bool) (pre post : List Contact) (c : Contact)
    (hc : q c = true) :
    ((pre ++ c :: post).filter q).length = (pre.filter q).length + 1 + (post.filter q).length := by
  simp [List.filter_cons, hc]
  omega

/-- C6: when exactly one contact matches, `deleteContact` removes that contact, whatever the
selection index: the store is `pre ++ c :: post` with `c` the one match, and the store after the
call is `pre ++ post`, one shorter; nothing is printed and nothing thrown. -/
theorem deleteContact_single_match (contacts : List Contact) (f : Field) (type value : Str)
    (index : Nat) (ht : type ∈ f.tokens)
    (h1 : (contacts.filter (fun c => f.get c == value)).length = 1) :
    ∃ pre c post, contacts = pre ++ c :: post ∧ f.get c = value
      ∧ (∀ x ∈ pre, f.get x ≠ value) ∧ (∀ x ∈ post, f.get x ≠ value)
      ∧ deleteContact contacts type value index = ⟨pre ++ post, [], none⟩
      ∧ (pre ++ post).length + 1 = contacts.length := by
  obtain ⟨pre, c, post, e, hc, hl⟩ :=
    exists_split_of_lt (fun c => f.get c == value) contacts 0 (by omega)
  have hcv : f.get c = value := by simpa using hc
  have hlen := filter_length_split (fun c => f.get c == value) pre post c hc
  rw [← e, h1, hl] at hlen
  have hpost : (post.filter (fun c => f.get c == value)).length = 0 := by omega
  refine ⟨pre, c, post, e, hcv, ?_, ?_, ?_, ?_⟩
  · intro x hx hxv
    have : x ∈ pre.filter (fun c => f.get c == value) := by simp [List.mem_filter, hx, hxv]
    rw [List.length_eq_zero.mp hl] at this
    simp at this
  · intro x hx hxv
    have : x ∈ post.filter (fun c => f.get c == value) := by simp [List.mem_filter, hx, hxv]
    rw [List.length_eq_zero.mp hpost] at this
    simp at this
  · rw [deleteContact_resolved f type ht, h1]
    simp only [lt_irrefl, if_false, if_true]
    have := eraseIdx_split f value pre post c hcv
    rw [hl, ← e] at this
    rw [this]
  · rw [e]
    simp
    omega

/-- C6, on the store [("A","F","1","C",""), ("B","M","2","C","")] with field "n", value "B" and
index 7: the second contact is removed. -/
theorem deleteContact_single_match_witness :
    "n".toList ∈ Field.name.tokens
    ∧ ([⟨['A'], ['F'], ['1'], ['C'], []⟩, ⟨['B'], ['M'], ['2'], ['C'], []⟩].filter
        (fun c => Field.name.get c == ['B'])).length = 1
    ∧ ∃ pre c post,
      [⟨['A'], ['F'], ['1'], ['C'], []⟩, ⟨['B'], ['M'], ['2'], ['C'], []⟩] = pre ++ c :: post
      ∧ Field.name.get c = ['B']
      ∧ (∀ x ∈ pre, Field.name.get x ≠ ['B']) ∧ (∀ x ∈ post, Field.name.get x ≠ ['B'])
      ∧ deleteContact [⟨['A'], ['F'], ['1'], ['C'], []⟩, ⟨['B'], ['M'], ['2'], ['C'], []⟩]
          "n".toList ['B'] 7 = ⟨pre ++ post, [], none⟩
      ∧ (pre ++ post).length + 1
          = [(⟨['A'], ['F'], ['1'], ['C'], []⟩ : Contact), ⟨['B'], ['M'], ['2'], ['C'], []⟩].length :=
  ⟨by decide, by decide,
   deleteContact_single_match [⟨['A'], ['F'], ['1'], ['C'], []⟩, ⟨['B'], ['M'], ['2'], ['C'], []⟩]
     .name "n".toList ['B'] 7 (by decide) (by decide)⟩

/-- C7: when two or more contacts match and the selection index is not less than the number
of matches, `deleteContact` and `modifyContact` leave the store as it was and print, after the
candidate list, the invalid-index line. -/
theorem invalid_selection_unchanged (contacts : List Contact) (f : Field) (type value : Str)
    (index : Nat) (choice : Int) (newValue : Str) (fresh : Contact) (ht : type ∈ f.tokens)
    (h2 : 2 ≤ (contacts.filter (fun c => f.get c == value)).length)
    (hi : (contacts.filter (fun c => f.get c == value)).length ≤ index) :
    deleteContact contacts type value index
      = ⟨contacts, Msg.multipleFound :: candidates (contacts.filter (fun c => f.get c == value))
          ++ [Msg.invalidIndex], none⟩
    ∧ modifyContact contacts type value index choice newValue fresh
      = ⟨contacts, Msg.multipleFound :: candidates (contacts.filter (fun c => f.get c == value))
          ++ [Msg.invalidIndex], none⟩ := by
  constructor
  · rw [deleteContact_resolved f type ht, if_pos (by omega), if_neg (by omega)]
  · rw [modifyContact_resolved f type ht, if_pos (by omega), if_neg (by omega)]

/-- C7, on a store of two contacts of class "C" with field "class", value "C" and index 2. -/
theorem invalid_selection_unchanged_witness :
    "class".toList ∈ Field.class_name.tokens
    ∧ 2 ≤ ([⟨['A'], ['F'], ['1'], ['C'], []⟩, ⟨['B'], ['M'], ['2'], ['C'], []⟩].filter
        (fun c => Field.class_name.get c == ['C'])).length
    ∧ ([⟨['A'], ['F'], ['1'], ['C'], []⟩, ⟨['B'], ['M'], ['2'], ['C'], []⟩].filter
        (fun c => Field.class_name.get c == ['C'])).length ≤ 2
    ∧ deleteContact [⟨['A'], ['F'], ['1'], ['C'], []⟩, ⟨['B'], ['M'], ['2'], ['C'], []⟩]
        "class".toList ['C'] 2
      = ⟨[⟨['A'], ['F'], ['1'], ['C'], []⟩, ⟨['B'], ['M'], ['2'], ['C'], []⟩],
          Msg.multipleFound :: candidates
            ([⟨['A'], ['F'], ['1'], ['C'], []⟩, ⟨['B'], ['M'], ['2'], ['C'], []⟩].filter
              (fun c => Field.class_name.get c == ['C'])) ++ [Msg.invalidIndex], none⟩
    ∧ modifyContact [⟨['A'], ['F'], ['1'], ['C'], []⟩, ⟨['B'], ['M'], ['2'], ['C'], []⟩]
        "class".toList ['C'] 2 6 [] default
      = ⟨[⟨['A'], ['F'], ['1'], ['C'], []⟩, ⟨['B'], ['M'], ['2'], ['C'], []⟩],
          Msg.multipleFound :: candidates
            ([⟨['A'], ['F'], ['1'], ['C'], []⟩, ⟨['B'], ['M'], ['2'], ['C'], []⟩].filter
              (fun c => Field.class_name.get c == ['C'])) ++ [Msg.invalidIndex], none⟩ :=
  ⟨by decide, by decide, by decide,
   invalid_selection_unchanged
     [⟨['A'], ['F'], ['1'], ['C'], []⟩, ⟨['B'], ['M'], ['2'], ['C'], []⟩]
     .class_name "class".toList ['C'] 2 6 [] default (by decide) (by decide) (by decide)⟩

/-- C8: when no contact matches, `deleteContact` and `modifyContact` leave the store as it was
and print the not-found line for the value. -/
theorem not_found_unchanged (contacts : List Contact) (f : Field) (type value : Str)
    (index : Nat) (choice : Int) (newValue : Str) (fresh : Contact) (ht : type ∈ f.tokens)
    (h0 : ∀ c ∈ contacts, f.get c ≠ value) :
    deleteContact contacts type value index = ⟨contacts, [Msg.notFound value], none⟩
    ∧ modifyContact contacts type value index choice newValue fresh
      = ⟨contacts, [Msg.notFound value], none⟩ := by
  have hnil : contacts.filter (fun c => f.get c == value) = [] := by
    rw [List.filter_eq_nil_iff]
    intro c hc
    simpa using h0 c hc
  constructor
  · rw [deleteContact_resolved f type ht, hnil]
    simp
  · rw [modifyContact_resolved f type ht, hnil]
    simp

/-- C8, on a store of one contact named "A" with field "Name" and value "Z". -/
theorem not_found_unchanged_witness :
    "Name".toList ∈ Field.name.tokens
    ∧ (∀ c ∈ [(⟨['A'], ['F'], ['1'], ['C'], []⟩ : Contact)], Field.name.get c ≠ ['Z'])
    ∧ deleteContact [⟨['A'], ['F'], ['1'], ['C'], []⟩] "Name".toList ['Z'] 0
      = ⟨[⟨['A'], ['F'], ['1'], ['C'], []⟩], [Msg.notFound ['Z']], none⟩
    ∧ modifyContact [⟨['A'], ['F'], ['1'], ['C'], []⟩] "Name".toList ['Z'] 0 1 ['Y'] default
      = ⟨[⟨['A'], ['F'], ['1'], ['C'], []⟩], [Msg.notFound ['Z']], none⟩ :=
  ⟨by decide, by decide,
   not_found_unchanged [⟨['A'], ['F'], ['1'], ['C'], []⟩] .name "Name".toList ['Z'] 0 1 ['Y']
     default (by decide) (by decide)⟩

/-- C9: when `k >= 2` contacts match, `deleteContact` prints the candidate list, which numbers
the matching contacts 0 .. k-1 in store order, and for every index `i < k` it removes the match
that has exactly `i` matches before it in the store: the store is `pre ++ c :: post` with `c`
that match (the `i`-th element of the filtered store), and the store after the call is
`pre ++ post`. -/
theorem deleteContact_selected (contacts : List Contact) (f : Field) (type value : Str)
    (i : Nat) (ht : type ∈ f.tokens)
    (hk : 2 ≤ (contacts.filter (fun c => f.get c == value)).length)
    (hi : i < (contacts.filter (fun c => f.get c == value)).length) :
    ∃ pre c post, contacts = pre ++ c :: post ∧ f.get c = value
      ∧ (pre.filter (fun c => f.get c == value)).length = i
      ∧ (contacts.filter (fun c => f.get c == value))[i]? = some c
      ∧ deleteContact contacts type value i
        = ⟨pre ++ post,
            Msg.multipleFound ::
              (contacts.filter (fun c => f.get c == value)).enum.map
                (fun jc => Msg.candidate jc.1 jc.2),
            none⟩ := by
  obtain ⟨pre, c, post, e, hc, hl⟩ :=
    exists_split_of_lt (fun c => f.get c == value) contacts i hi
  have hcv : f.get c = value := by simpa using hc
  refine ⟨pre, c, post, e, hcv, hl, ?_, ?_⟩
  · rw [e, List.filter_append, List.filter_cons, if_pos hc, ← hl]
    exact getElem?_append_length _ _ _
  · rw [deleteContact_resolved f type ht, if_pos (by omega), if_pos hi]
    have := eraseIdx_split f value pre post c hcv
    rw [hl, ← e] at this
    rw [this]
    rfl

/-- C9, on the store [A, B, A2] where A and A2 are named "A": with index 1 the third contact is
removed, not the first. -/
theorem deleteContact_selected_witness :
    "N".toList ∈ Field.name.tokens
    ∧ 2 ≤ ([⟨['A'], ['F'], ['1'], ['C'], []⟩, ⟨['B'], ['M'], ['2'], ['C'], []⟩,
          ⟨['A'], ['F'], ['3'], ['D'], ['x']⟩].filter
        (fun c => Field.name.get c == ['A'])).length
    ∧ 1 < ([⟨['A'], ['F'], ['1'], ['C'], []⟩, ⟨['B'], ['M'], ['2'], ['C'], []⟩,
          ⟨['A'], ['F'], ['3'], ['D'], ['x']⟩].filter
        (fun c => Field.name.get c == ['A'])).length
    ∧ (∃ pre c post,
        [⟨['A'], ['F'], ['1'], ['C'], []⟩, ⟨['B'], ['M'], ['2'], ['C'], []⟩,
          ⟨['A'], ['F'], ['3'], ['D'], ['x']⟩] = pre ++ c :: post
        ∧ Field.name.get c = ['A']
        ∧ (pre.filter (fun c => Field.name.get c == ['A'])).length = 1
        ∧ ([⟨['A'], ['F'], ['1'], ['C'], []⟩, ⟨['B'], ['M'], ['2'], ['C'], []⟩,
            ⟨['A'], ['F'], ['3'], ['D'], ['x']⟩].filter
            (fun c => Field.name.get c == ['A']))[1]? = some c
        ∧ deleteContact [⟨['A'], ['F'], ['1'], ['C'], []⟩, ⟨['B'], ['M'], ['2'], ['C'], []⟩,
            ⟨['A'], ['F'], ['3'], ['D'], ['x']⟩] "N".toList ['A'] 1
          = ⟨pre ++ post,
              Msg.multipleFound ::
                ([⟨['A'], ['F'], ['1'], ['C'], []⟩, ⟨['B'], ['M'], ['2'], ['C'], []⟩,
                  ⟨['A'], ['F'], ['3'], ['D'], ['x']⟩].filter
                  (fun c => Field.name.get c == ['A'])).enum.map
                  (fun jc => Msg.candidate jc.1 jc.2),
              none⟩)
    ∧ deleteContact [⟨['A'], ['F'], ['1'], ['C'], []⟩, ⟨['B'], ['M'], ['2'], ['C'], []⟩,
          ⟨['A'], ['F'], ['3'], ['D'], ['x']⟩] "N".toList ['A'] 1
        = ⟨[⟨['A'], ['F'], ['1'], ['C'], []⟩, ⟨['B'], ['M'], ['2'], ['C'], []⟩],
            [Msg.multipleFound, Msg.candidate 0 ⟨['A'], ['F'], ['1'], ['C'], []⟩,
              Msg.candidate 1 ⟨['A'], ['F'], ['3'], ['D'], ['x']⟩], none⟩ :=
  ⟨by decide, by decide, by decide,
   deleteContact_selected [⟨['A'], ['F'], ['1'], ['C'], []⟩, ⟨['B'], ['M'], ['2'], ['C'], []⟩,
     ⟨['A'], ['F'], ['3'], ['D'], ['x']⟩] .name "N".toList ['A'] 1 (by decide) (by decide)
     (by decide),
   by decide⟩

/-- C10: `modifyContact` resolves its target as `deleteContact` does (the single match, or
the match with `index` matches before it when `index` is valid) and updates it in place: the
store is `pre ++ c :: post` with `c` the target, `deleteContact` leaves `pre ++ post`, and
`modifyContact` leaves `pre ++ c' :: post`, where `c'` is `c` with the one field replaced by the
supplied value for the choices 1 to 5 (name, gender, phone, class, note), the freshly entered
contact for choice 6, and `c` itself for choice 7 (and for any other number). -/
theorem modifyContact_in_place (contacts : List Contact) (f : Field) (type value : Str)
    (index i : Nat) (choice : Int) (newValue : Str) (fresh : Contact) (ht : type ∈ f.tokens)
    (hres : ((contacts.filter (fun c => f.get c == value)).length = 1 ∧ i = 0)
      ∨ (2 ≤ (contacts.filter (fun c => f.get c == value)).length
          ∧ index < (contacts.filter (fun c => f.get c == value)).length ∧ i = index)) :
    ∃ pre c post c', contacts = pre ++ c :: post ∧ f.get c = value
      ∧ (pre.filter (fun c => f.get c == value)).length = i
      ∧ (deleteContact contacts type value index).contacts = pre ++ post
      ∧ (modifyContact contacts type value index choice newValue fresh).contacts
          = pre ++ c' :: post
      ∧ (modifyContact contacts type value index choice newValue fresh).thrown = none
      ∧ (choice = 1 → c' = { c with name := newValue })
      ∧ (choice = 2 → c' = { c with gender := newValue })
      ∧ (choice = 3 → c' = { c with phone := newValue })
      ∧ (choice = 4 → c' = { c with class_name := newValue })
      ∧ (choice = 5 → c' = { c with note := newValue })
      ∧ (choice = 6 → c' = fresh)
      ∧ (choice = 7 → c' = c)
      ∧ (choice < 1 ∨ 7 < choice → c' = c) := by
  have hi : i < (contacts.filter (fun c => f.get c == value)).length := by omega
  obtain ⟨pre, c, post, e, hc, hl⟩ :=
    exists_split_of_lt (fun c => f.get c == value) contacts i hi
  have hcv : f.get c = value := by simpa using hc
  have hE := eraseIdx_split f value pre post c hcv
  have hM := modifyAt_split f value pre post c hcv choice newValue fresh
  rw [hl, ← e] at hE hM
  refine ⟨pre, c, post, (modifyContactValue c choice newValue fresh).1, e, hcv, hl,
    ?_, ?_, ?_, ?_, ?_, ?_, ?_, ?_, ?_, ?_, ?_⟩
  · rw [deleteContact_resolved f type ht]
    rcases hres with ⟨h1, h0⟩ | ⟨h2, h3, h4⟩
    · subst h0
      rw [if_neg (by omega), if_pos h1, hE]
    · subst h4
      rw [if_pos (by omega), if_pos h3, hE]
  · rw [modifyContact_resolved f type ht]
    rcases hres with ⟨h1, h0⟩ | ⟨h2, h3, h4⟩
    · subst h0
      rw [if_neg (by omega), if_pos h1, hM]
    · subst h4
      rw [if_pos (by omega), if_pos h3, hM]
  · rw [modifyContact_resolved f type ht]
    split_ifs <;> rfl
  · intro h
    simp [modifyContactValue, h]
  · intro h
    simp [modifyContactValue, h]
  · intro h
    simp [modifyContactValue, h]
  · intro h
    simp [modifyContactValue, h]
  · intro h
    simp [modifyContactValue, h]
  · intro h
    simp [modifyContactValue, h]
  · intro h
    simp [modifyContactValue, h]
  · intro h
    have h1 : choice ≠ 1 := by omega
    have h2 : choice ≠ 2 := by omega
    have h3 : choice ≠ 3 := by omega
    have h4 : choice ≠ 4 := by omega
    have h5 : choice ≠ 5 := by omega
    have h6 : choice ≠ 6 := by omega
    have h7 : choice ≠ 7 := by omega
    simp [modifyContactValue, h1, h2, h3, h4, h5, h6, h7]

/-- C10, on the store [A, B, A2] where A and A2 are named "A": with index 1 and choice 3 the
phone of the third contact is replaced, and nothing else. -/
theorem modifyContact_in_place_witness :
    "N".toList ∈ Field.name.tokens
    ∧ ((([⟨['A'], ['F'], ['1'], ['C'], []⟩, ⟨['B'], ['M'], ['2'], ['C'], []⟩,
          ⟨['A'], ['F'], ['3'], ['D'], ['x']⟩].filter
          (fun c => Field.name.get c == ['A'])).length = 1 ∧ 1 = 0)
      ∨ (2 ≤ ([⟨['A'], ['F'], ['1'], ['C'], []⟩, ⟨['B'], ['M'], ['2'], ['C'], []⟩,
          ⟨['A'], ['F'], ['3'], ['D'], ['x']⟩].filter
          (fun c => Field.name.get c == ['A'])).length
        ∧ 1 < ([⟨['A'], ['F'], ['1'], ['C'], []⟩, ⟨['B'], ['M'], ['2'], ['C'], []⟩,
          ⟨['A'], ['F'], ['3'], ['D'], ['x']⟩].filter
          (fun c => Field.name.get c == ['A'])).length ∧ 1 = 1))
    ∧ (∃ pre c post c',
        [⟨['A'], ['F'], ['1'], ['C'], []⟩, ⟨['B'], ['M'], ['2'], ['C'], []⟩,
          ⟨['A'], ['F'], ['3'], ['D'], ['x']⟩] = pre ++ c :: post
        ∧ Field.name.get c = ['A']
        ∧ (pre.filter (fun c => Field.name.get c == ['A'])).length = 1
        ∧ (deleteContact [⟨['A'], ['F'], ['1'], ['C'], []⟩, ⟨['B'], ['M'], ['2'], ['C'], []⟩,
            ⟨['A'], ['F'], ['3'], ['D'], ['x']⟩] "N".toList ['A'] 1).contacts = pre ++ post
        ∧ (modifyContact [⟨['A'], ['F'], ['1'], ['C'], []⟩, ⟨['B'], ['M'], ['2'], ['C'], []⟩,
            ⟨['A'], ['F'], ['3'], ['D'], ['x']⟩] "N".toList ['A'] 1 3 ['9'] default).contacts
            = pre ++ c' :: post
        ∧ (modifyContact [⟨['A'], ['F'], ['1'], ['C'], []⟩, ⟨['B'], ['M'], ['2'], ['C'], []⟩,
            ⟨['A'], ['F'], ['3'], ['D'], ['x']⟩] "N".toList ['A'] 1 3 ['9'] default).thrown
            = none
        ∧ ((3 : Int) = 1 → c' = { c with name := ['9'] })
        ∧ ((3 : Int) = 2 → c' = { c with gender := ['9'] })
        ∧ ((3 : Int) = 3 → c' = { c with phone := ['9'] })
        ∧ ((3 : Int) = 4 → c' = { c with class_name := ['9'] })
        ∧ ((3 : Int) = 5 → c' = { c with note := ['9'] })
        ∧ ((3 : Int) = 6 → c' = default)
        ∧ ((3 : Int) = 7 → c' = c)
        ∧ ((3 : Int) < 1 ∨ 7 < (3 : Int) → c' = c))
    ∧ modifyContact [⟨['A'], ['F'], ['1'], ['C'], []⟩, ⟨['B'], ['M'], ['2'], ['C'], []⟩,
          ⟨['A'], ['F'], ['3'], ['D'], ['x']⟩] "N".toList ['A'] 1 3 ['9'] default
        = ⟨[⟨['A'], ['F'], ['1'], ['C'], []⟩, ⟨['B'], ['M'], ['2'], ['C'], []⟩,
            ⟨['A'], ['F'], ['9'], ['D'], ['x']⟩],
            [Msg.multipleFound, Msg.candidate 0 ⟨['A'], ['F'], ['1'], ['C'], []⟩,
              Msg.candidate 1 ⟨['A'], ['F'], ['3'], ['D'], ['x']⟩], none⟩ :=
  ⟨by decide, by decide,
   modifyContact_in_place [⟨['A'], ['F'], ['1'], ['C'], []⟩, ⟨['B'], ['M'], ['2'], ['C'], []⟩,
     ⟨['A'], ['F'], ['3'], ['D'], ['x']⟩] .name "N".toList ['A'] 1 1 3 ['9'] default
     (by decide) (by decide),
   by decide⟩

/-! ### The CSV text -/

theorem parseLine_eq_readFields (line : Str) :
    parseLine line = (readFields 5 line).bind contactOfFields := by
  unfold parseLine
  simp only [readFields]
  cases getline ',' line with
  | none => rfl
  | some x1 =>
    obtain ⟨f1, r1⟩ := x1
    dsimp only
    cases getline ',' r1 with
    | none => rfl
    | some x2 =>
      obtain ⟨f2, r2⟩ := x2
      dsimp only
      cases getline ',' r2 with
      | none => rfl
      | some x3 =>
        obtain ⟨f3, r3⟩ := x3
        dsimp only
        cases getline ',' r3 with
        | none => rfl
        | some x4 =>
          obtain ⟨f4, r4⟩ := x4
          dsimp only
          cases getline ',' r4 with
          | none => rfl
          | some x5 =>
            obtain ⟨f5, r5⟩ := x5
            rfl

theorem getlineChars_snd_length (d : Char) (s : Str) :
    (getlineChars d s).2.length ≤ s.length := by
  induction s with
  | nil => simp [getlineChars]
  | cons c cs ih =>
    by_cases h : c = d
    · simp [getlineChars, h]
    · simp only [getlineChars, h, if_false, List.length_cons]
      omega

theorem getlineChars_cons_length (d c : Char) (cs : Str) :
    (getlineChars d (c :: cs)).2.length ≤ cs.length := by
  by_cases h : c = d
  · simp [getlineChars, h]
  · simp only [getlineChars, h, if_false]
    exact getlineChars_snd_length d cs

/-- The lines of a text are what `std::getline` delivers first, then the lines of the rest. -/
theorem textLines_cons (c : Char) (cs : Str) :
    textLines (c :: cs)
      = (getlineChars '\n' (c :: cs)).1 :: textLines (getlineChars '\n' (c :: cs)).2 := by
  induction cs generalizing c with
  | nil => by_cases h : c = '\n' <;> simp [textLines, getlineChars, h]
  | cons c2 cs ih =>
    by_cases h : c = '\n'
    · simp [textLines, getlineChars, h]
    · rw [textLines]
      simp only [h, if_false]
      rw [ih c2]
      simp [getlineChars, h]

/-- The reading loop ends within `file.length + 1` passes, with the contacts of the lines
`parseLine` accepts and a diagnostic for every other line. -/
theorem readLoop_eq (fuel : Nat) (file : Str) (cs : List Contact) (err : List Msg)
    (h : file.length < fuel) :
    readLoop fuel file cs err
      = some (cs ++ (textLines file).filterMap parseLine, err ++ warnings (textLines file)) := by
  induction fuel generalizing file cs err with
  | zero => omega
  | succ n ih =>
    cases file with
    | nil => simp [readLoop, getline, textLines, warnings]
    | cons c rest =>
      have hlen := getlineChars_cons_length '\n' c rest
      have hn : (getlineChars '\n' (c :: rest)).2.length < n := by
        simp only [List.length_cons] at h
        omega
      rw [readLoop]
      simp only [getline]
      rw [textLines_cons]
      cases hp : parseLine (getlineChars '\n' (c :: rest)).1 with
      | none =>
        simp only []
        rw [ih _ _ _ hn]
        simp [warnings, hp, List.filter_cons]
      | some x =>
        simp only []
        rw [ih _ _ _ hn]
        simp [warnings, hp, List.filter_cons]

/-- The parsing of `loadFromFile` always ends: it yields the contacts of the lines after the
first that `parseLine` accepts, and a diagnostic for every other line after the first. -/
theorem decode_eq (text : Str) :
    decode text
      = some ((textLines text).tail.filterMap parseLine, warnings (textLines text).tail) := by
  unfold decode skipHeader
  cases text with
  | nil => simp [getline, readLoop, textLines, warnings]
  | cons c rest =>
    have hlen := getlineChars_cons_length '\n' c rest
    simp only [getline]
    rw [readLoop_eq _ _ _ _ (by simp only [List.length_cons]; omega), textLines_cons]
    simp

theorem getlineChars_of_not_mem (d : Char) (s : Str) (h : d ∉ s) :
    getlineChars d s = (s, []) := by
  induction s with
  | nil => rfl
  | cons c cs ih =>
    have hc : c ≠ d := fun e => h (by simp [e])
    have hcs : d ∉ cs := fun e => h (by simp [e])
    simp [getlineChars, hc, ih hcs]

/-- Splitting on the comma gives what `std::getline(iss, field, ',')` extracts, followed,
when there is a comma, by the split of what is left unread. -/
theorem splitOn_getlineChars (s : Str) :
    List.splitOn ',' s
      = (getlineChars ',' s).1
        :: (if ',' ∈ s then List.splitOn ',' (getlineChars ',' s).2 else []) := by
  induction s with
  | nil => simp [getlineChars, List.splitOn]
  | cons c cs ih =>
    unfold List.splitOn at ih ⊢
    rw [List.splitOnP_cons]
    by_cases h : c = ','
    · simp [h, getlineChars]
    · have h2 : ¬ (',' = c) := fun e => h e.symm
      rw [ih]
      simp [h, h2, getlineChars]

/-- When the line has fewer than `n` comma-separated fields, one of the first `n` reads
fails. -/
theorem readFields_none_of_short (n : Nat) (s : Str) (h : (List.splitOn ',' s).length < n) :
    readFields n s = none := by
  induction n generalizing s with
  | zero => omega
  | succ n ih =>
    cases s with
    | nil => rfl
    | cons c cs =>
      rw [readFields]
      simp only [getline]
      rw [splitOn_getlineChars] at h
      by_cases hm : ',' ∈ c :: cs
      · rw [if_pos hm] at h
        simp only [List.length_cons, Nat.add_lt_add_iff_right] at h
        rw [ih _ h]
        rfl
      · rw [if_neg hm] at h
        simp only [List.length_cons, List.length_nil] at h
        rw [getlineChars_of_not_mem _ _ hm]
        cases n with
        | zero => omega
        | succ m => rfl

/-- When the line has more than `n` comma-separated fields, the first `n` reads succeed and
deliver the first `n` fields. -/
theorem readFields_some_of_long (n : Nat) (s : Str) (h : n < (List.splitOn ',' s).length) :
    readFields n s = some ((List.splitOn ',' s).take n) := by
  induction n generalizing s with
  | zero => simp [readFields]
  | succ n ih =>
    have hm : ',' ∈ s := by
      by_contra hm
      rw [splitOn_getlineChars, if_neg hm] at h
      simp at h
    cases s with
    | nil => simp at hm
    | cons c cs =>
      rw [readFields]
      simp only [getline]
      rw [splitOn_getlineChars, if_pos hm] at h
      simp only [List.length_cons, Nat.add_lt_add_iff_right] at h
      rw [ih _ h]
      conv_rhs => rw [splitOn_getlineChars, if_pos hm]
      simp

/-- C1, failing input: the store of the one contact ("Alice","F","111","C1","") with an empty
note, which `loadFromFile` itself produces from the line "Alice,F,111,C1,,".  `saveToFile`
writes the line "Alice,F,111,C1," for it, and the parsing of `loadFromFile` rejects that line:
the text decodes to no contact and one parse diagnostic, not to the original store. -/
theorem roundtrip_loses_empty_note :
    decode "姓名,性别,电话,班级,备注\nAlice,F,111,C1,,\n".toList
      = some ([⟨"Alice".toList, "F".toList, "111".toList, "C1".toList, []⟩], [])
    ∧ encode [⟨"Alice".toList, "F".toList, "111".toList, "C1".toList, []⟩]
      = "姓名,性别,电话,班级,备注\nAlice,F,111,C1,\n".toList
    ∧ decode (encode [⟨"Alice".toList, "F".toList, "111".toList, "C1".toList, []⟩])
      = some ([], [Msg.parseError "Alice,F,111,C1,".toList]) := by
  decide

/-- C2, counterexample: the second line of the text splits on ',' into six fields, not five,
and the parsing of `loadFromFile` adds a contact for it (made of the first five fields) and
records no diagnostic. -/
theorem decode_accepts_six_fields :
    textLines "姓名,性别,电话,班级,备注\nBob,M,222,C2,x,y\n".toList
      = ["姓名,性别,电话,班级,备注".toList, "Bob,M,222,C2,x,y".toList]
    ∧ (List.splitOn ',' "Bob,M,222,C2,x,y".toList).length = 6
    ∧ decode "姓名,性别,电话,班级,备注\nBob,M,222,C2,x,y\n".toList
      = some ([⟨"Bob".toList, "M".toList, "222".toList, "C2".toList, "x".toList⟩], []) := by
  decide

/-- C2, amended: for every text and every line after the first, if splitting the line on ','
gives fewer than five fields, the parsing of `loadFromFile` adds no contact for the line and
records exactly one diagnostic, carrying the raw line (the contacts and diagnostics are those of
the lines before, the one diagnostic, and those of the lines after); if it gives more than five
fields, the parsing adds the contact made of the first five fields and records no diagnostic for
the line. -/
theorem decode_line_by_field_count (text first line : Str) (pre post : List Str)
    (hl : textLines text = first :: (pre ++ line :: post)) :
    ((List.splitOn ',' line).length < 5 →
      decode text
        = some (pre.filterMap parseLine ++ post.filterMap parseLine,
            warnings pre ++ Msg.parseError line :: warnings post))
    ∧ (5 < (List.splitOn ',' line).length →
      ∃ name gender phone class_name note more,
        List.splitOn ',' line = name :: gender :: phone :: class_name :: note :: more
        ∧ decode text
          = some (pre.filterMap parseLine
                ++ ⟨name, gender, phone, class_name, note⟩ :: post.filterMap parseLine,
              warnings pre ++ warnings post)) := by
  rw [decode_eq, hl]
  constructor
  · intro h
    have hp : parseLine line = none := by
      rw [parseLine_eq_readFields, readFields_none_of_short 5 line h]
      rfl
    simp [warnings, List.filterMap_append, List.filter_append, List.filter_cons, hp]
  · intro h
    have hr := readFields_some_of_long 5 line h
    rcases hs : List.splitOn ',' line with _ | ⟨a, _ | ⟨b, _ | ⟨c, _ | ⟨d, _ | ⟨e, more⟩⟩⟩⟩⟩
    all_goals rw [hs] at h hr
    all_goals simp only [List.length_cons, List.length_nil] at h
    all_goals try omega
    have hp : parseLine line = some ⟨a, b, c, d, e⟩ := by
      rw [parseLine_eq_readFields, hr]
      rfl
    refine ⟨a, b, c, d, e, more, rfl, ?_⟩
    simp [warnings, List.filterMap_append, List.filter_append, List.filter_cons, hp]

/-- C2, amended, on the text of the specification's example: the line "bad,line" (two fields)
gives no contact and one diagnostic; and on a text with a line of six fields. -/
theorem decode_line_by_field_count_witness :
    (textLines "姓名,性别,电话,班级,备注\nBob,M,222,C2,x\nbad,line\n".toList
        = "姓名,性别,电话,班级,备注".toList :: (["Bob,M,222,C2,x".toList] ++ "bad,line".toList :: [])
      ∧ (List.splitOn ',' "bad,line".toList).length < 5
      ∧ decode "姓名,性别,电话,班级,备注\nBob,M,222,C2,x\nbad,line\n".toList
        = some (["Bob,M,222,C2,x".toList].filterMap parseLine ++ [].filterMap parseLine,
            warnings ["Bob,M,222,C2,x".toList]
              ++ Msg.parseError "bad,line".toList :: warnings []))
    ∧ (textLines "h\n1,2,3,4,5,6,7".toList = "h".toList :: ([] ++ "1,2,3,4,5,6,7".toList :: [])
      ∧ 5 < (List.splitOn ',' "1,2,3,4,5,6,7".toList).length
      ∧ ∃ name gender phone class_name note more,
        List.splitOn ',' "1,2,3,4,5,6,7".toList
          = name :: gender :: phone :: class_name :: note :: more
        ∧ decode "h\n1,2,3,4,5,6,7".toList
          = some ([].filterMap parseLine
                ++ ⟨name, gender, phone, class_name, note⟩ :: [].filterMap parseLine,
              warnings [] ++ warnings [])) :=
  ⟨⟨by decide, by decide,
    (decode_line_by_field_count "姓名,性别,电话,班级,备注\nBob,M,222,C2,x\nbad,line\n".toList
      "姓名,性别,电话,班级,备注".toList "bad,line".toList ["Bob,M,222,C2,x".toList] []
      (by decide)).1 (by decide)⟩,
   ⟨by decide, by decide,
    (decode_line_by_field_count "h\n1,2,3,4,5,6,7".toList "h".toList "1,2,3,4,5,6,7".toList
      [] [] (by decide)).2 (by decide)⟩⟩

/-! ### Saving -/

theorem writeContacts_eq (contacts : List Contact) (file : Str) :
    writeContacts contacts file = file ++ unlines (contacts.map csvLine) := by
  induction contacts generalizing file with
  | nil => simp [writeContacts, unlines]
  | cons c rest ih =>
    rw [writeContacts, ih]
    simp [encodeContact, unlines, csvLine, List.intercalate]

theorem encode_eq (contacts : List Contact) :
    encode contacts = header ++ '\n' :: unlines (contacts.map csvLine) := by
  unfold encode
  rw [writeContacts_eq]
  simp

/-- C11: for every non-empty store, the text `saveToFile` writes (to every file it can open)
is the header line "姓名,性别,电话,班级,备注", then one line per contact in store order, the
fields name, gender, phone, class, note joined by single commas without a trailing comma and
written as they are; every line, the header included, is followed by one newline. -/
theorem encode_layout (contacts : List Contact) (canWrite : Str → Bool) (filename : Str)
    (hne : contacts ≠ []) (hw : canWrite (normalizeFilename filename) = true) :
    saveToFile canWrite contacts filename
      = (some (normalizeFilename filename, encode contacts), [])
    ∧ encode contacts
      = "姓名,性别,电话,班级,备注".toList ++ '\n' ::
          unlines (contacts.map (fun c =>
            List.intercalate [','] [c.name, c.gender, c.phone, c.class_name, c.note]))
    ∧ (contacts.map (fun c =>
        List.intercalate [','] [c.name, c.gender, c.phone, c.class_name, c.note])).length
      = contacts.length := by
  refine ⟨?_, ?_, by simp⟩
  · unfold saveToFile
    cases contacts with
    | nil => exact absurd rfl hne
    | cons c rest => simp [hw]
  · rw [encode_eq]
    rfl

/-- C11, on the store [("Bob","M","222","C2","x"), ("A,b","","","","")] saved as "book.csv":
the second contact's comma is written as it is. -/
theorem encode_layout_witness :
    ([⟨"Bob".toList, "M".toList, "222".toList, "C2".toList, "x".toList⟩,
        ⟨"A,b".toList, [], [], [], []⟩] : List Contact) ≠ []
    ∧ (fun _ => true) (normalizeFilename "book.csv".toList) = true
    ∧ (saveToFile (fun _ => true)
          [⟨"Bob".toList, "M".toList, "222".toList, "C2".toList, "x".toList⟩,
            ⟨"A,b".toList, [], [], [], []⟩] "book.csv".toList
        = (some (normalizeFilename "book.csv".toList,
            encode [⟨"Bob".toList, "M".toList, "222".toList, "C2".toList, "x".toList⟩,
              ⟨"A,b".toList, [], [], [], []⟩]), [])
      ∧ encode [⟨"Bob".toList, "M".toList, "222".toList, "C2".toList, "x".toList⟩,
            ⟨"A,b".toList, [], [], [], []⟩]
        = "姓名,性别,电话,班级,备注".toList ++ '\n' ::
            unlines ([(⟨"Bob".toList, "M".toList, "222".toList, "C2".toList, "x".toList⟩ : Contact),
              ⟨"A,b".toList, [], [], [], []⟩].map (fun c : Contact =>
              List.intercalate [','] [c.name, c.gender, c.phone, c.class_name, c.note]))
      ∧ ([(⟨"Bob".toList, "M".toList, "222".toList, "C2".toList, "x".toList⟩ : Contact),
            ⟨"A,b".toList, [], [], [], []⟩].map (fun c : Contact =>
          List.intercalate [','] [c.name, c.gender, c.phone, c.class_name, c.note])).length
        = [(⟨"Bob".toList, "M".toList, "222".toList, "C2".toList, "x".toList⟩ : Contact),
            ⟨"A,b".toList, [], [], [], []⟩].length)
    ∧ encode [⟨"Bob".toList, "M".toList, "222".toList, "C2".toList, "x".toList⟩,
          ⟨"A,b".toList, [], [], [], []⟩]
      = "姓名,性别,电话,班级,备注\nBob,M,222,C2,x\nA,b,,,,\n".toList :=
  ⟨by decide, rfl,
   encode_layout [⟨"Bob".toList, "M".toList, "222".toList, "C2".toList, "x".toList⟩,
     ⟨"A,b".toList, [], [], [], []⟩] (fun _ => true) "book.csv".toList (by decide) rfl,
   by decide⟩

/-- C12: on an empty store `saveToFile` prints the empty-book error and writes no file, for
every file name; it writes a file (the text `encode` produces) exactly when the store has at
least one contact and the file can be opened. -/
theorem saveToFile_empty (canWrite : Str → Bool) (filename : Str) :
    saveToFile canWrite [] filename = (none, [Msg.emptyBook])
    ∧ ∀ contacts : List Contact,
      ((saveToFile canWrite contacts filename).1.isSome = true
        ↔ contacts ≠ [] ∧ canWrite (normalizeFilename filename) = true)
      ∧ ((saveToFile canWrite contacts filename).1.isSome = true →
          (saveToFile canWrite contacts filename).1
            = some (normalizeFilename filename, encode contacts)) := by
  refine ⟨rfl, fun contacts => ?_⟩
  unfold saveToFile
  cases contacts with
  | nil => simp
  | cons c rest =>
    cases hw : canWrite (normalizeFilename filename) <;> simp [hw]

/-- C12, with the file name "book": nothing is written for the empty store, and the file is
written for a store of one contact. -/
theorem saveToFile_empty_witness :
    saveToFile (fun _ => true) [] "book".toList = (none, [Msg.emptyBook])
    ∧ (saveToFile (fun _ => true) [⟨['a'], ['b'], ['c'], ['d'], ['e']⟩] "book".toList).1.isSome
      = true
    ∧ (saveToFile (fun _ => true) [⟨['a'], ['b'], ['c'], ['d'], ['e']⟩] "book".toList).1
      = some (normalizeFilename "book".toList, encode [⟨['a'], ['b'], ['c'], ['d'], ['e']⟩]) :=
  ⟨(saveToFile_empty (fun _ => true) "book".toList).1, by decide,
   ((saveToFile_empty (fun _ => true) "book".toList).2
      [⟨['a'], ['b'], ['c'], ['d'], ['e']⟩]).2 (by decide)⟩

theorem find_last_of_from_not_mem (ch : Char) (s : Str) (i best : Nat) (h : ch ∉ s) :
    find_last_of_from ch s i best = best := by
  induction s generalizing i best with
  | nil => rfl
  | cons c cs ih =>
    have hc : c ≠ ch := fun e => h (by simp [e])
    have hcs : ch ∉ cs := fun e => h (by simp [e])
    simp [find_last_of_from, hc, ih _ _ hcs]

theorem find_last_of_from_split (ch : Char) (pre suf : Str) (i best : Nat) (h : ch ∉ suf) :
    find_last_of_from ch (pre ++ ch :: suf) i best = i + pre.length := by
  induction pre generalizing i best with
  | nil => simp [find_last_of_from, find_last_of_from_not_mem ch suf _ _ h]
  | cons c cs ih =>
    rw [List.cons_append, find_last_of_from, ih]
    simp only [List.length_cons]
    omega

theorem exists_last_split (ch : Char) (s : Str) (h : ch ∈ s) :
    ∃ pre suf, s = pre ++ ch :: suf ∧ ch ∉ suf := by
  induction s with
  | nil => simp at h
  | cons c cs ih =>
    by_cases hcs : ch ∈ cs
    · obtain ⟨pre, suf, e, hs⟩ := ih hcs
      exact ⟨c :: pre, suf, by simp [e], hs⟩
    · have hc : ch = c := by
        rcases List.mem_cons.mp h with h1 | h1
        · exact h1
        · exact absurd h1 hcs
      exact ⟨[], cs, by simp [hc], hcs⟩

theorem last_split_unique (ch : Char) (a b a2 b2 : Str) (e : a ++ ch :: b = a2 ++ ch :: b2)
    (hb : ch ∉ b) (hb2 : ch ∉ b2) : a = a2 ∧ b = b2 := by
  have h1 := find_last_of_from_split ch a b 0 0 hb
  have h2 := find_last_of_from_split ch a2 b2 0 0 hb2
  rw [e, h2] at h1
  have hl : a.length = a2.length := by omega
  have := List.append_inj e hl
  simpa using this

/-- The file name `saveToFile` opens: the supplied name when it ends with ".csv" or is the
bare name "csv", and the supplied name followed by ".csv" otherwise. -/
theorem normalizeFilename_eq (filename : Str) (hlen : filename.length < 2 ^ 64) :
    (".csv".toList <:+ filename ∨ filename = "csv".toList →
      normalizeFilename filename = filename)
    ∧ (¬ (".csv".toList <:+ filename ∨ filename = "csv".toList) →
      normalizeFilename filename = filename ++ ".csv".toList) := by
  have hdot : '.' ∉ "csv".toList := by decide
  by_cases hd : '.' ∈ filename
  · obtain ⟨pre, suf, e, hs⟩ := exists_last_split '.' filename hd
    have hfl : find_last_of filename '.' = pre.length := by
      unfold find_last_of
      rw [e, find_last_of_from_split _ _ _ _ _ hs]
      simp
    have hlt : pre.length + 1 < 2 ^ 64 := by
      have : filename.length = pre.length + 1 + suf.length := by
        rw [e]
        simp
        omega
      omega
    have hsub : substr filename ((find_last_of filename '.' + 1) % 2 ^ 64) = suf := by
      rw [hfl, Nat.mod_eq_of_lt hlt, e]
      unfold substr
      rw [show pre ++ '.' :: suf = (pre ++ ['.']) ++ suf by simp]
      exact List.drop_left' (by simp)
    have key : suf = "csv".toList ↔ (".csv".toList <:+ filename ∨ filename = "csv".toList) := by
      constructor
      · intro h
        left
        rw [e, h]
        exact ⟨pre, by simp⟩
      · rintro (⟨t, ht⟩ | h)
        · rw [e] at ht
          have ht2 : t ++ '.' :: "csv".toList = pre ++ '.' :: suf := by
            rw [← ht]
            rfl
          exact (last_split_unique '.' t _ pre suf ht2 hdot hs).2.symm
        · rw [h] at hd
          exact absurd hd hdot
    unfold normalizeFilename
    rw [hsub]
    constructor
    · intro h
      rw [if_neg (by simpa using key.mpr h)]
    · intro h
      rw [if_pos (fun hh => h (key.mp hh))]
  · have hfl : find_last_of filename '.' = npos := by
      unfold find_last_of
      exact find_last_of_from_not_mem _ _ _ _ hd
    have hsub : substr filename ((find_last_of filename '.' + 1) % 2 ^ 64) = filename := by
      rw [hfl]
      unfold substr npos
      simp
    have key : filename = "csv".toList
        ↔ (".csv".toList <:+ filename ∨ filename = "csv".toList) := by
      constructor
      · intro h
        exact Or.inr h
      · rintro (⟨t, ht⟩ | h)
        · exfalso
          apply hd
          rw [← ht]
          simp
        · exact h
    unfold normalizeFilename
    rw [hsub]
    constructor
    · intro h
      rw [if_neg (by simpa using key.mpr h)]
    · intro h
      rw [if_pos (fun hh => h (key.mp hh))]

/-- C13, failing input: the file name "csv" has no '.', so `find_last_of` returns `npos`,
`npos + 1` wraps to 0 and the whole name is compared with "csv": `saveToFile` opens "csv"
itself, without the suffix.  The dot-less name "book" does get the suffix. -/
theorem normalizeFilename_bare_csv :
    '.' ∉ "csv".toList
    ∧ ¬ (".csv".toList <:+ "csv".toList)
    ∧ find_last_of "csv".toList '.' = npos
    ∧ normalizeFilename "csv".toList = "csv".toList
    ∧ (saveToFile (fun _ => true) [⟨['a'], ['b'], ['c'], ['d'], ['e']⟩] "csv".toList).1
      = some ("csv".toList, encode [⟨['a'], ['b'], ['c'], ['d'], ['e']⟩])
    ∧ normalizeFilename "book".toList = "book.csv".toList := by
  refine ⟨by decide, by decide, by decide, by decide, by decide, by decide⟩

/-- C14: the store after any sequence of `addContact` calls on the empty store is the added
contacts in insertion order, and `display` lists exactly them, in that order; each call appends
at the end, makes the store one longer and leaves the earlier contacts where they were,
whatever the contact (a duplicate is added again). -/
theorem addContact_sequence (added store : List Contact) (c : Contact) :
    added.foldl addContact [] = added
    ∧ display (added.foldl addContact [])
      = (if added = [] then [Msg.emptyDisplay]
         else Msg.listHeader :: added.map Msg.contactLine)
    ∧ addContact store c = store ++ [c]
    ∧ (addContact store c).length = store.length + 1
    ∧ (addContact store c).take store.length = store
    ∧ addContact (addContact store c) c = store ++ [c, c] := by
  have h : ∀ (l acc : List Contact), l.foldl addContact acc = acc ++ l := by
    intro l
    induction l with
    | nil => simp
    | cons a l ih =>
      intro acc
      rw [List.foldl_cons, ih]
      simp [addContact]
  refine ⟨by simpa using h added [], ?_, rfl, by simp [addContact], ?_, by simp [addContact]⟩
  · rw [h added []]
    cases added with
    | nil => rfl
    | cons a l => simp [display]
  · simp [addContact]

/-! ### Loading -/

theorem getlineChars_append (d : Char) (l rest : Str) (h : d ∉ l) :
    getlineChars d (l ++ d :: rest) = (l, rest) := by
  induction l with
  | nil => simp [getlineChars]
  | cons c cs ih =>
    have hc : c ≠ d := fun e => h (by simp [e])
    have hcs : d ∉ cs := fun e => h (by simp [e])
    simp [getlineChars, hc, ih hcs]

/-- A newline-free piece followed by a newline is the first line of the text. -/
theorem textLines_line (l rest : Str) (h : '\n' ∉ l) :
    textLines (l ++ '\n' :: rest) = l :: textLines rest := by
  cases l with
  | nil =>
    rw [List.nil_append, textLines_cons]
    simp [getlineChars]
  | cons c cs =>
    rw [List.cons_append, textLines_cons, ← List.cons_append, getlineChars_append _ _ _ h]

/-- After a first line `h`, the parsing of `loadFromFile` depends on the rest of the text
only. -/
theorem decode_header (h r : Str) (hh : '\n' ∉ h) :
    decode (h ++ '\n' :: r) = some ((textLines r).filterMap parseLine, warnings (textLines r)) := by
  rw [decode_eq, textLines_line h r hh]
  rfl

theorem textLines_ne_nil (c : Char) (cs : Str) : textLines (c :: cs) ≠ [] := by
  rw [textLines_cons]
  simp

theorem textLines_append_newline (l rest : Str) :
    textLines (l ++ '\n' :: rest) = textLines (l ++ ['\n']) ++ textLines rest := by
  induction l with
  | nil => simp [textLines]
  | cons c cs ih =>
    by_cases hc : c = '\n'
    · simp [textLines, hc, ih]
    · rw [List.cons_append, List.cons_append, textLines, textLines]
      simp only [hc, if_false]
      rw [ih]
      cases hx : textLines (cs ++ ['\n']) with
      | nil =>
        exfalso
        cases cs with
        | nil => exact textLines_ne_nil _ _ hx
        | cons d ds => exact textLines_ne_nil _ _ hx
      | cons x xs => simp

theorem unlines_append (A B : List Str) : unlines (A ++ B) = unlines A ++ unlines B := by
  induction A with
  | nil => simp [unlines]
  | cons a A ih => simp [unlines, ih]

theorem textLines_unlines_append (A : List Str) (rest : Str) :
    textLines (unlines A ++ rest) = textLines (unlines A) ++ textLines rest := by
  induction A with
  | nil => simp [unlines, textLines]
  | cons a A ih =>
    simp only [unlines, List.append_assoc, List.cons_append]
    rw [textLines_append_newline, textLines_append_newline a (unlines A), ih]
    simp

theorem textLines_unlines (ls : List Str) (h : ∀ l ∈ ls, '\n' ∉ l) :
    textLines (unlines ls) = ls := by
  induction ls with
  | nil => simp [unlines, textLines]
  | cons a ls ih =>
    rw [unlines, textLines_line a _ (h a (by simp)), ih (fun l hl => h l (by simp [hl]))]

theorem warnings_append (a b : List Str) : warnings (a ++ b) = warnings a ++ warnings b := by
  simp [warnings]

theorem count_lines (ls : List Str) :
    (ls.filterMap parseLine).length + (warnings ls).length = ls.length := by
  induction ls with
  | nil => simp [warnings]
  | cons a ls ih =>
    unfold warnings at ih ⊢
    cases hp : parseLine a with
    | none =>
      simp only [List.filterMap_cons, hp, List.filter_cons, Option.isNone_none, if_true,
        List.map_cons, List.length_cons]
      omega
    | some c =>
      simp only [List.filterMap_cons, hp, List.filter_cons, Option.isNone_some,
        Bool.false_eq_true, if_false, List.length_cons]
      omega

/-- C15: the first line is discarded whatever it is: for newline-free first lines `h1` and
`h2` and every remaining text `r`, the texts `h1 \n r` and `h2 \n r` give the same contacts and
the same diagnostics, namely those of the lines of `r`; the first line gives neither a contact
nor a diagnostic. -/
theorem decode_ignores_first_line (h1 h2 r : Str) (hh1 : '\n' ∉ h1) (hh2 : '\n' ∉ h2) :
    decode (h1 ++ '\n' :: r) = decode (h2 ++ '\n' :: r)
    ∧ decode (h1 ++ '\n' :: r)
      = some ((textLines r).filterMap parseLine, warnings (textLines r)) := by
  rw [decode_header h1 r hh1, decode_header h2 r hh2]
  exact ⟨rfl, rfl⟩

/-- C15, with a first line that is a valid record, "Al,F,1,C,n", against the header, before
the line "Bob,M,222,C2,x": both texts give the one contact Bob. -/
theorem decode_ignores_first_line_witness :
    '\n' ∉ "Al,F,1,C,n".toList ∧ '\n' ∉ "姓名,性别,电话,班级,备注".toList
    ∧ (decode ("Al,F,1,C,n".toList ++ '\n' :: "Bob,M,222,C2,x\n".toList)
        = decode ("姓名,性别,电话,班级,备注".toList ++ '\n' :: "Bob,M,222,C2,x\n".toList)
      ∧ decode ("Al,F,1,C,n".toList ++ '\n' :: "Bob,M,222,C2,x\n".toList)
        = some ((textLines "Bob,M,222,C2,x\n".toList).filterMap parseLine,
            warnings (textLines "Bob,M,222,C2,x\n".toList)))
    ∧ decode "Al,F,1,C,n\nBob,M,222,C2,x\n".toList
      = some ([⟨"Bob".toList, "M".toList, "222".toList, "C2".toList, "x".toList⟩], []) :=
  ⟨by decide, by decide,
   decode_ignores_first_line "Al,F,1,C,n".toList "姓名,性别,电话,班级,备注".toList
     "Bob,M,222,C2,x\n".toList (by decide) (by decide),
   by decide⟩

/-- C16: every data line is parsed on its own and parsing goes on after a malformed line: for
a newline-free header `h` and lists of data lines `A` and `B` (each line followed by a
newline), the contacts of `h, A, B` are those of `h, A` followed by those of `h, B`, and so are
the diagnostics. -/
theorem decode_append_lines (h : Str) (A B : List Str) (hh : '\n' ∉ h) :
    ∃ ca wa cb wb,
      decode (h ++ '\n' :: unlines A) = some (ca, wa)
      ∧ decode (h ++ '\n' :: unlines B) = some (cb, wb)
      ∧ decode (h ++ '\n' :: unlines (A ++ B)) = some (ca ++ cb, wa ++ wb) := by
  refine ⟨_, _, _, _, decode_header h _ hh, decode_header h _ hh, ?_⟩
  rw [decode_header h _ hh, unlines_append, textLines_unlines_append, List.filterMap_append,
    warnings_append]

/-- C16, the example of the specification: the header, then the lines "Bob,M,222,C2,x" and
"bad,line", give the one contact ("Bob","M","222","C2","x") and one diagnostic, for
"bad,line". -/
theorem decode_append_lines_witness :
    '\n' ∉ "姓名,性别,电话,班级,备注".toList
    ∧ (∃ ca wa cb wb,
        decode ("姓名,性别,电话,班级,备注".toList ++ '\n' :: unlines ["Bob,M,222,C2,x".toList])
          = some (ca, wa)
        ∧ decode ("姓名,性别,电话,班级,备注".toList ++ '\n' :: unlines ["bad,line".toList])
          = some (cb, wb)
        ∧ decode ("姓名,性别,电话,班级,备注".toList ++ '\n' ::
            unlines (["Bob,M,222,C2,x".toList] ++ ["bad,line".toList]))
          = some (ca ++ cb, wa ++ wb))
    ∧ decode "姓名,性别,电话,班级,备注\nBob,M,222,C2,x\nbad,line\n".toList
      = some ([⟨"Bob".toList, "M".toList, "222".toList, "C2".toList, "x".toList⟩],
          [Msg.parseError "bad,line".toList]) :=
  ⟨by decide,
   decode_append_lines "姓名,性别,电话,班级,备注".toList ["Bob,M,222,C2,x".toList]
     ["bad,line".toList] (by decide),
   by decide⟩

/-- C17: for every text the parsing of `loadFromFile` ends, and the contacts and the
diagnostics it gives are together as many as the lines after the first: every such line gives
one contact or one diagnostic.  The empty text, a lone first line and a first line followed by
a newline give no contact and no diagnostic. -/
theorem decode_counts_lines (text : Str) :
    (∃ cs ws, decode text = some (cs, ws)
      ∧ cs.length + ws.length = (textLines text).tail.length)
    ∧ decode [] = some ([], [])
    ∧ (∀ h : Str, '\n' ∉ h →
        decode h = some ([], []) ∧ decode (h ++ ['\n']) = some ([], [])) := by
  refine ⟨⟨_, _, decode_eq text, count_lines _⟩, by decide, fun h hh => ⟨?_, ?_⟩⟩
  · rw [decode_eq]
    cases h with
    | nil => simp [textLines, warnings]
    | cons c cs =>
      rw [textLines_cons, getlineChars_of_not_mem _ _ hh]
      simp [textLines, warnings]
  · rw [decode_header h [] hh]
    simp [textLines, warnings]

/-- C17, on the text of the specification's example (two lines after the first: one contact
and one diagnostic) and on the header alone. -/
theorem decode_counts_lines_witness :
    (∃ cs ws, decode "姓名,性别,电话,班级,备注\nBob,M,222,C2,x\nbad,line\n".toList = some (cs, ws)
      ∧ cs.length + ws.length
        = (textLines "姓名,性别,电话,班级,备注\nBob,M,222,C2,x\nbad,line\n".toList).tail.length)
    ∧ (textLines "姓名,性别,电话,班级,备注\nBob,M,222,C2,x\nbad,line\n".toList).tail.length = 2
    ∧ '\n' ∉ "姓名,性别,电话,班级,备注".toList
    ∧ decode "姓名,性别,电话,班级,备注".toList = some ([], [])
    ∧ decode ("姓名,性别,电话,班级,备注".toList ++ ['\n']) = some ([], []) :=
  ⟨(decode_counts_lines "姓名,性别,电话,班级,备注\nBob,M,222,C2,x\nbad,line\n".toList).1,
   by decide, by decide,
   ((decode_counts_lines []).2.2 "姓名,性别,电话,班级,备注".toList (by decide)).1,
   ((decode_counts_lines []).2.2 "姓名,性别,电话,班级,备注".toList (by decide)).2⟩

/-! ### Saving, then loading -/

theorem getline_field (f rest : Str) (h : ',' ∉ f) :
    getline ',' (f ++ ',' :: rest) = some (f, rest) := by
  cases f with
  | nil => simp [getline, getlineChars]
  | cons c cs =>
    rw [List.cons_append]
    simp only [getline]
    rw [← List.cons_append, getlineChars_append _ _ _ h]

theorem getline_last (f : Str) (h : ',' ∉ f) (hne : f ≠ []) : getline ',' f = some (f, []) := by
  cases f with
  | nil => exact absurd rfl hne
  | cons c cs =>
    simp only [getline]
    rw [getlineChars_of_not_mem _ _ h]

/-- The line written for a contact with comma-free fields and a non-empty note is read back as
that contact. -/
theorem parseLine_csvLine (c : Contact) (h1 : ',' ∉ c.name) (h2 : ',' ∉ c.gender)
    (h3 : ',' ∉ c.phone) (h4 : ',' ∉ c.class_name) (h5 : ',' ∉ c.note) (hn : c.note ≠ []) :
    parseLine (csvLine c) = some c := by
  have e : csvLine c
      = c.name ++ ',' :: (c.gender ++ ',' :: (c.phone ++ ',' :: (c.class_name ++ ',' :: c.note))) := by
    simp [csvLine, List.intercalate]
  rw [e]
  unfold parseLine
  simp only [getline_field _ _ h1, getline_field _ _ h2, getline_field _ _ h3,
    getline_field _ _ h4, getline_last _ h5 hn]

theorem csvLine_no_newline (c : Contact) (h1 : '\n' ∉ c.name) (h2 : '\n' ∉ c.gender)
    (h3 : '\n' ∉ c.phone) (h4 : '\n' ∉ c.class_name) (h5 : '\n' ∉ c.note) :
    '\n' ∉ csvLine c := by
  simp [csvLine, List.intercalate, h1, h2, h3, h4, h5]

theorem header_no_newline : '\n' ∉ header := by
  decide

/-- C18: for every non-empty store in which no field holds a comma or a newline and every
note is non-empty (the other fields may be empty), the parsing of `loadFromFile` on the text
`saveToFile` writes gives back the store, contact for contact, and no diagnostic. -/
theorem roundtrip_nonempty_notes (contacts : List Contact) (hne : contacts ≠ [])
    (hf : ∀ c ∈ contacts, ∀ s ∈ [c.name, c.gender, c.phone, c.class_name, c.note],
      ',' ∉ s ∧ '\n' ∉ s)
    (hn : ∀ c ∈ contacts, c.note ≠ []) :
    decode (encode contacts) = some (contacts, [])
    ∧ ∀ (canWrite : Str → Bool) (filename : Str), canWrite (normalizeFilename filename) = true →
      ∃ text, saveToFile canWrite contacts filename
          = (some (normalizeFilename filename, text), [])
        ∧ decode text = some (contacts, []) := by
  have hlines : ∀ l ∈ contacts.map csvLine, '\n' ∉ l := by
    intro l hl
    obtain ⟨c, hc, rfl⟩ := List.mem_map.mp hl
    have h := hf c hc
    exact csvLine_no_newline c (h _ (by simp)).2 (h _ (by simp)).2 (h _ (by simp)).2
      (h _ (by simp)).2 (h _ (by simp)).2
  have hparse : ∀ c ∈ contacts, parseLine (csvLine c) = some c := by
    intro c hc
    have h := hf c hc
    exact parseLine_csvLine c (h _ (by simp)).1 (h _ (by simp)).1 (h _ (by simp)).1
      (h _ (by simp)).1 (h _ (by simp)).1 (hn c hc)
  have hcs : ∀ l : List Contact, (∀ c ∈ l, parseLine (csvLine c) = some c) →
      (l.map csvLine).filterMap parseLine = l ∧ warnings (l.map csvLine) = [] := by
    intro l
    induction l with
    | nil => intro _; simp [warnings]
    | cons a l ih =>
      intro h
      have ha := h a (by simp)
      have hl := ih (fun c hc => h c (by simp [hc]))
      unfold warnings at hl ⊢
      simp only [List.map_cons, List.filterMap_cons, ha, hl.1, List.filter_cons,
        Option.isNone_some, Bool.false_eq_true, if_false, hl.2, and_self]
  have hdec : decode (encode contacts) = some (contacts, []) := by
    rw [encode_eq, decode_header _ _ header_no_newline, textLines_unlines _ hlines,
      (hcs contacts hparse).1, (hcs contacts hparse).2]
  refine ⟨hdec, fun canWrite filename hw => ⟨encode contacts, ?_, hdec⟩⟩
  unfold saveToFile
  cases contacts with
  | nil => exact absurd rfl hne
  | cons c rest => simp [hw]

/-- C18, on the store [("Bob","M","222","C2","x"), ("","","","","n")]: all fields but the
note of the second contact are empty. -/
theorem roundtrip_nonempty_notes_witness :
    ([⟨"Bob".toList, "M".toList, "222".toList, "C2".toList, "x".toList⟩,
        ⟨[], [], [], [], ['n']⟩] : List Contact) ≠ []
    ∧ (∀ c ∈ [(⟨"Bob".toList, "M".toList, "222".toList, "C2".toList, "x".toList⟩ : Contact),
          ⟨[], [], [], [], ['n']⟩],
        ∀ s ∈ [c.name, c.gender, c.phone, c.class_name, c.note], ',' ∉ s ∧ '\n' ∉ s)
    ∧ (∀ c ∈ [(⟨"Bob".toList, "M".toList, "222".toList, "C2".toList, "x".toList⟩ : Contact),
          ⟨[], [], [], [], ['n']⟩], c.note ≠ [])
    ∧ decode (encode [⟨"Bob".toList, "M".toList, "222".toList, "C2".toList, "x".toList⟩,
          ⟨[], [], [], [], ['n']⟩])
      = some ([⟨"Bob".toList, "M".toList, "222".toList, "C2".toList, "x".toList⟩,
          ⟨[], [], [], [], ['n']⟩], []) :=
  ⟨by decide, by decide, by decide,
   (roundtrip_nonempty_notes
      [⟨"Bob".toList, "M".toList, "222".toList, "C2".toList, "x".toList⟩,
        ⟨[], [], [], [], ['n']⟩] (by decide) (by decide) (by decide)).1⟩

/-- C19: when the file can be opened, the store after `loadFromFile` is the contacts parsed
from its text, whatever the store held before (a file of a header line only leaves the store
empty); when the file cannot be opened, the store is what it was, and the cannot-open error is
printed. -/
theorem loadFromFile_replaces (fs : Str → Option Str) (prior : List Contact) (filename : Str) :
    (∀ text, fs filename = some text →
      loadFromFile fs prior filename
          = some ((textLines text).tail.filterMap parseLine, warnings (textLines text).tail)
        ∧ loadFromFile fs prior filename = decode text
        ∧ ∀ other : List Contact,
            loadFromFile fs other filename = loadFromFile fs prior filename)
    ∧ (∀ h : Str, '\n' ∉ h → fs filename = some (h ++ ['\n']) →
        loadFromFile fs prior filename = some ([], []))
    ∧ (fs filename = none →
        loadFromFile fs prior filename = some (prior, [Msg.cannotOpen filename])) := by
  refine ⟨fun text ht => ?_, fun h hh ht => ?_, fun hnone => ?_⟩
  · refine ⟨?_, ?_, fun other => ?_⟩
    · unfold loadFromFile
      rw [ht]
      exact decode_eq text
    · unfold loadFromFile
      rw [ht]
    · unfold loadFromFile
      rw [ht]
  · unfold loadFromFile
    rw [ht]
    simp only []
    rw [decode_header h [] hh]
    simp [textLines, warnings]
  · unfold loadFromFile
    rw [hnone]

/-- C19, with a file system that holds the one file "book.csv", a header line only, and a
prior store of one contact: loading "book.csv" empties the store, loading "none.csv" leaves
it. -/
theorem loadFromFile_replaces_witness :
    '\n' ∉ header
    ∧ (fun n => if n = "book.csv".toList then some (header ++ ['\n']) else none)
        "book.csv".toList = some (header ++ ['\n'])
    ∧ loadFromFile (fun n => if n = "book.csv".toList then some (header ++ ['\n']) else none)
        [⟨['a'], ['b'], ['c'], ['d'], ['e']⟩] "book.csv".toList = some ([], [])
    ∧ (fun n => if n = "book.csv".toList then some (header ++ ['\n']) else none)
        "none.csv".toList = none
    ∧ loadFromFile (fun n => if n = "book.csv".toList then some (header ++ ['\n']) else none)
        [⟨['a'], ['b'], ['c'], ['d'], ['e']⟩] "none.csv".toList
      = some ([⟨['a'], ['b'], ['c'], ['d'], ['e']⟩], [Msg.cannotOpen "none.csv".toList]) :=
  ⟨by decide, by decide,
   (loadFromFile_replaces
      (fun n => if n = "book.csv".toList then some (header ++ ['\n']) else none)
      [⟨['a'], ['b'], ['c'], ['d'], ['e']⟩] "book.csv".toList).2.1 header (by decide)
      (by decide),
   by decide,
   (loadFromFile_replaces
      (fun n => if n = "book.csv".toList then some (header ++ ['\n']) else none)
      [⟨['a'], ['b'], ['c'], ['d'], ['e']⟩] "none.csv".toList).2.2 (by decide)⟩

/-! ### Deleting, then finding -/

theorem findContacts_resolved (f : Field) (type : Str) (ht : type ∈ f.tokens)
    (contacts : List Contact) (value : Str) :
    findContacts contacts type value = .ok (contacts.filter (fun c => f.get c == value)) := by
  unfold findContacts
  rw [getPredicate_tokens f type ht]
  simp only [copy_if_eq, List.nil_append]

/-- C20: after a `deleteContact` that resolves (one match, or `k >= 2` matches and an index
`i < k`), `findContacts` with the same field and value returns what it returned before with
its `i`-th element removed (`i = 0` for one match): it has `k - 1` elements, and none after a
single-match delete. -/
theorem find_after_delete (contacts : List Contact) (f : Field) (type value : Str)
    (index i : Nat) (ht : type ∈ f.tokens)
    (hres : ((contacts.filter (fun c => f.get c == value)).length = 1 ∧ i = 0)
      ∨ (2 ≤ (contacts.filter (fun c => f.get c == value)).length
          ∧ index < (contacts.filter (fun c => f.get c == value)).length ∧ i = index)) :
    ∃ before, findContacts contacts type value = .ok before
      ∧ findContacts (deleteContact contacts type value index).contacts type value
        = .ok (before.eraseIdx i)
      ∧ (before.eraseIdx i).length + 1 = before.length
      ∧ (before.length = 1 → before.eraseIdx i = []) := by
  have hi : i < (contacts.filter (fun c => f.get c == value)).length := by omega
  obtain ⟨pre, c, post, e, hc, hl⟩ :=
    exists_split_of_lt (fun c => f.get c == value) contacts i hi
  have hcv : f.get c = value := by simpa using hc
  have hE := eraseIdx_split f value pre post c hcv
  rw [hl, ← e] at hE
  have hdel : (deleteContact contacts type value index).contacts = pre ++ post := by
    rw [deleteContact_resolved f type ht]
    rcases hres with ⟨h1, h0⟩ | ⟨h2, h3, h4⟩
    · subst h0
      rw [if_neg (by omega), if_pos h1, hE]
    · subst h4
      rw [if_pos (by omega), if_pos h3, hE]
  have hfilter : contacts.filter (fun c => f.get c == value)
      = pre.filter (fun c => f.get c == value)
        ++ c :: post.filter (fun c => f.get c == value) := by
    rw [e, List.filter_append, List.filter_cons, if_pos hc]
  have herase : (contacts.filter (fun c => f.get c == value)).eraseIdx i
      = (pre ++ post).filter (fun c => f.get c == value) := by
    rw [hfilter, ← hl, eraseIdx_append_length, List.filter_append]
  refine ⟨_, findContacts_resolved f type ht contacts value, ?_, ?_, ?_⟩
  · rw [hdel, findContacts_resolved f type ht, herase]
  · rw [List.length_eraseIdx, if_pos hi]
    omega
  · intro h1
    apply List.eq_nil_of_length_eq_zero
    rw [List.length_eraseIdx, if_pos hi]
    omega

/-- C20, on the store [A, B, A2] where A and A2 are named "A", with field "N", value "A" and
index 1: find gave [A, A2] before the delete and gives [A] after it. -/
theorem find_after_delete_witness :
    "N".toList ∈ Field.name.tokens
    ∧ ((([⟨['A'], ['F'], ['1'], ['C'], []⟩, ⟨['B'], ['M'], ['2'], ['C'], []⟩,
          ⟨['A'], ['F'], ['3'], ['D'], ['x']⟩].filter
          (fun c => Field.name.get c == ['A'])).length = 1 ∧ 1 = 0)
      ∨ (2 ≤ ([⟨['A'], ['F'], ['1'], ['C'], []⟩, ⟨['B'], ['M'], ['2'], ['C'], []⟩,
          ⟨['A'], ['F'], ['3'], ['D'], ['x']⟩].filter
          (fun c => Field.name.get c == ['A'])).length
        ∧ 1 < ([⟨['A'], ['F'], ['1'], ['C'], []⟩, ⟨['B'], ['M'], ['2'], ['C'], []⟩,
          ⟨['A'], ['F'], ['3'], ['D'], ['x']⟩].filter
          (fun c => Field.name.get c == ['A'])).length ∧ 1 = 1))
    ∧ (∃ before,
        findContacts [⟨['A'], ['F'], ['1'], ['C'], []⟩, ⟨['B'], ['M'], ['2'], ['C'], []⟩,
            ⟨['A'], ['F'], ['3'], ['D'], ['x']⟩] "N".toList ['A'] = .ok before
        ∧ findContacts (deleteContact [⟨['A'], ['F'], ['1'], ['C'], []⟩,
            ⟨['B'], ['M'], ['2'], ['C'], []⟩, ⟨['A'], ['F'], ['3'], ['D'], ['x']⟩]
            "N".toList ['A'] 1).contacts "N".toList ['A']
          = .ok (before.eraseIdx 1)
        ∧ (before.eraseIdx 1).length + 1 = before.length
        ∧ (before.length = 1 → before.eraseIdx 1 = []))
    ∧ findContacts (deleteContact [⟨['A'], ['F'], ['1'], ['C'], []⟩,
          ⟨['B'], ['M'], ['2'], ['C'], []⟩, ⟨['A'], ['F'], ['3'], ['D'], ['x']⟩]
          "N".toList ['A'] 1).contacts "N".toList ['A']
      = .ok [⟨['A'], ['F'], ['1'], ['C'], []⟩] :=
  ⟨by decide, by decide,
   find_after_delete [⟨['A'], ['F'], ['1'], ['C'], []⟩, ⟨['B'], ['M'], ['2'], ['C'], []⟩,
     ⟨['A'], ['F'], ['3'], ['D'], ['x']⟩] .name "N".toList ['A'] 1 1 (by decide) (by decide),
   rfl⟩

end AddressBook
